import Mathlib

/-!
# Bank accounts behind capability interfaces

A shallow embedding of `DAY4/LSP/LSP_followed_correctly.cpp`.

* The program is embedded twice. In the first embedding a C++ `double` amount is an
  exact rational (`ℚ`): it serves the statements that only restate the program's own
  guard and operations, and rounding, infinities and NaN are outside of it. In the
  second embedding, in the namespace `Binary64`, a `double` is an IEEE 754 binary64
  value (`Double`), with rounding to nearest, infinities and NaN: it serves the
  statements whose truth depends on them.
* A member function becomes a function from the object (and its arguments) to
  the updated object paired with what the call inserted into `cout`.
* `cout` is the list of the items inserted with `<<`, in order.
* Objects reached through pointers live in a `Heap`; a pointer is an address.
-/

set_option linter.dupNamespace false

set_option exponentiation.threshold 5000

/-! ## Console output -/

/-- One item inserted into `cout` by `<<`: a string literal, a `double`, or `endl`. -/
inductive Piece where
  | str (s : String)
  | num (x : ℚ)
  | endl
  deriving DecidableEq, Repr

/-- What a call wrote to `cout`, in insertion order. -/
abbrev Output := List Piece

/-! ## The concrete account classes -/

/-- The class `SavingAccount`: its only data member is `double balance`. -/
structure SavingAccount where
  balance : ℚ
  deriving DecidableEq, Repr

/-- The class `CurrentAccount`: its only data member is `double balance`. -/
structure CurrentAccount where
  balance : ℚ
  deriving DecidableEq, Repr

/-- The class `FixedTermAccount`: its only data member is `double balance`. -/
structure FixedTermAccount where
  balance : ℚ
  deriving DecidableEq, Repr

/-- The member `SavingAccount::deposit(double amount)`. -/
def SavingAccount.deposit (self : SavingAccount) (amount : ℚ) : SavingAccount × Output :=
  let self : SavingAccount := { self with balance := self.balance + amount }
  (self, [.str "Deposited: ", .num amount, .str " in Savings Account. New Balance: ",
          .num self.balance, .endl])

/-- The member `SavingAccount::withdraw(double amount)`. -/
def SavingAccount.withdraw (self : SavingAccount) (amount : ℚ) : SavingAccount × Output :=
  if self.balance ≥ amount then
    let self : SavingAccount := { self with balance := self.balance - amount }
    (self, [.str "Withdrawn: ", .num amount, .str " from Savings Account. New Balance: ",
            .num self.balance, .endl])
  else
    (self, [.str "Insufficient funds in Savings Account!\n"])

/-- The constructor `SavingAccount::SavingAccount()`. -/
def SavingAccount.SavingAccount : SavingAccount :=
  { balance := 0 }

/-- The member `CurrentAccount::deposit(double amount)`. -/
def CurrentAccount.deposit (self : CurrentAccount) (amount : ℚ) : CurrentAccount × Output :=
  let self : CurrentAccount := { self with balance := self.balance + amount }
  (self, [.str "Deposited: ", .num amount, .str " in Current Account. New Balance: ",
          .num self.balance, .endl])

/-- The member `CurrentAccount::withdraw(double amount)`. -/
def CurrentAccount.withdraw (self : CurrentAccount) (amount : ℚ) : CurrentAccount × Output :=
  if self.balance ≥ amount then
    let self : CurrentAccount := { self with balance := self.balance - amount }
    (self, [.str "Withdrawn: ", .num amount, .str " from Current Account. New Balance: ",
            .num self.balance, .endl])
  else
    (self, [.str "Insufficient funds in Current Account!\n"])

/-- The constructor `CurrentAccount::CurrentAccount()`. -/
def CurrentAccount.CurrentAccount : CurrentAccount :=
  { balance := 0 }

/-- The member `FixedTermAccount::deposit(double amount)`. -/
def FixedTermAccount.deposit (self : FixedTermAccount) (amount : ℚ) :
    FixedTermAccount × Output :=
  let self : FixedTermAccount := { self with balance := self.balance + amount }
  (self, [.str "Deposited: ", .num amount, .str " in Fixed Term Account. New Balance: ",
          .num self.balance, .endl])

/-- The constructor `FixedTermAccount::FixedTermAccount()`. -/
def FixedTermAccount.FixedTermAccount : FixedTermAccount :=
  { balance := 0 }

/-! ## The capability interfaces

`WithdrawableAccount` derives from `DepositOnlyAccount`; `SavingAccount` and
`CurrentAccount` derive from `WithdrawableAccount`, `FixedTermAccount` from
`DepositOnlyAccount`. An object seen through an interface is a value of the sum
of the classes deriving from it, and a virtual call dispatches on the summand. -/

/-- An object of a class derived from `WithdrawableAccount`. -/
inductive WithdrawableAccount where
  | saving (acc : SavingAccount)
  | current (acc : CurrentAccount)
  deriving DecidableEq, Repr

/-- An object of a class derived from `DepositOnlyAccount`. -/
inductive DepositOnlyAccount where
  | withdrawable (acc : WithdrawableAccount)
  | fixedTerm (acc : FixedTermAccount)
  deriving DecidableEq, Repr

/-- The virtual call `deposit(amount)` on a `WithdrawableAccount`. -/
def WithdrawableAccount.deposit (self : WithdrawableAccount) (amount : ℚ) :
    WithdrawableAccount × Output :=
  match self with
  | .saving acc => Prod.map .saving id (acc.deposit amount)
  | .current acc => Prod.map .current id (acc.deposit amount)

/-- The virtual call `withdraw(amount)` on a `WithdrawableAccount`. -/
def WithdrawableAccount.withdraw (self : WithdrawableAccount) (amount : ℚ) :
    WithdrawableAccount × Output :=
  match self with
  | .saving acc => Prod.map .saving id (acc.withdraw amount)
  | .current acc => Prod.map .current id (acc.withdraw amount)

/-- The virtual call `deposit(amount)` on a `DepositOnlyAccount`. -/
def DepositOnlyAccount.deposit (self : DepositOnlyAccount) (amount : ℚ) :
    DepositOnlyAccount × Output :=
  match self with
  | .withdrawable acc => Prod.map .withdrawable id (acc.deposit amount)
  | .fixedTerm acc => Prod.map .fixedTerm id (acc.deposit amount)

/-- Observer: the private `balance` of the object behind a `WithdrawableAccount`. -/
def WithdrawableAccount.balance : WithdrawableAccount → ℚ
  | .saving acc => acc.balance
  | .current acc => acc.balance

/-- Observer: the private `balance` of the object behind a `DepositOnlyAccount`. -/
def DepositOnlyAccount.balance : DepositOnlyAccount → ℚ
  | .withdrawable acc => acc.balance
  | .fixedTerm acc => acc.balance

/-! ## Objects behind pointers -/

/-- An address returned by `new`. -/
abbrev Ptr := ℕ

/-- The account objects allocated with `new`, by address. -/
abbrev Heap := Ptr → Option DepositOnlyAccount

/-- Whether `acc` may be held in a `WithdrawableAccount*`: it points to a live
object of a class derived from `WithdrawableAccount`. -/
def Heap.isWithdrawable (h : Heap) (acc : Ptr) : Bool :=
  match h acc with
  | some (.withdrawable _) => true
  | _ => false

/-- Whether `acc` may be held in a `DepositOnlyAccount*`: it points to a live object. -/
def Heap.isDepositOnly (h : Heap) (acc : Ptr) : Bool :=
  (h acc).isSome

/-- The call `acc->deposit(amount)` for `WithdrawableAccount* acc`: the object is
updated in place. No result when `acc` does not point to such an object. -/
def Heap.withdrawableDeposit (h : Heap) (acc : Ptr) (amount : ℚ) : Option (Heap × Output) :=
  match h acc with
  | some (.withdrawable obj) =>
    some (Function.update h acc (some (.withdrawable (obj.deposit amount).1)),
          (obj.deposit amount).2)
  | _ => none

/-- The call `acc->withdraw(amount)` for `WithdrawableAccount* acc`. -/
def Heap.withdrawableWithdraw (h : Heap) (acc : Ptr) (amount : ℚ) : Option (Heap × Output) :=
  match h acc with
  | some (.withdrawable obj) =>
    some (Function.update h acc (some (.withdrawable (obj.withdraw amount).1)),
          (obj.withdraw amount).2)
  | _ => none

/-- The call `acc->deposit(amount)` for `DepositOnlyAccount* acc`. -/
def Heap.depositOnlyDeposit (h : Heap) (acc : Ptr) (amount : ℚ) : Option (Heap × Output) :=
  match h acc with
  | some obj =>
    some (Function.update h acc (some (obj.deposit amount).1), (obj.deposit amount).2)
  | none => none

/-! ## The client -/

/-- The class `BankClient`: two vectors of pointers, one per capability. -/
structure BankClient where
  withdrawableAccounts : List Ptr
  depositOnlyAccounts : List Ptr
  deriving DecidableEq, Repr

/-- The first loop of `processTransactions`, over the remaining elements of
`withdrawableAccounts`: `acc->deposit(1000); acc->withdraw(500);`. -/
def BankClient.withdrawableLoop (h : Heap) : List Ptr → Option (Heap × Output)
  | [] => some (h, [])
  | acc :: rest => do
    let r1 ← h.withdrawableDeposit acc 1000
    let r2 ← r1.1.withdrawableWithdraw acc 500
    let r3 ← withdrawableLoop r2.1 rest
    pure (r3.1, r1.2 ++ r2.2 ++ r3.2)

/-- The second loop of `processTransactions`, over the remaining elements of
`depositOnlyAccounts`: `acc->deposit(5000);`. -/
def BankClient.depositOnlyLoop (h : Heap) : List Ptr → Option (Heap × Output)
  | [] => some (h, [])
  | acc :: rest => do
    let r1 ← h.depositOnlyDeposit acc 5000
    let r2 ← depositOnlyLoop r1.1 rest
    pure (r2.1, r1.2 ++ r2.2)

/-- The member `BankClient::processTransactions()`: the client after the call, the
heap after the call, and what the call wrote to `cout`. -/
def BankClient.processTransactions (self : BankClient) (h : Heap) :
    Option (BankClient × Heap × Output) := do
  let r1 ← BankClient.withdrawableLoop h self.withdrawableAccounts
  let r2 ← BankClient.depositOnlyLoop r1.1 self.depositOnlyAccounts
  pure (self, r2.1, r1.2 ++ r2.2)

/-- The constructor `BankClient::BankClient(withdrawableAccounts, depositOnlyAccounts)`. -/
def BankClient.BankClient (withdrawableAccounts depositOnlyAccounts : List Ptr) : BankClient :=
  { withdrawableAccounts := withdrawableAccounts, depositOnlyAccounts := depositOnlyAccounts }

/-- The heap of `main` after its three `new` expressions: `savings` at address 0,
`current` at address 1, `fixed` at address 2. -/
def mainHeap : Heap := fun p =>
  match p with
  | 0 => some (.withdrawable (.saving SavingAccount.SavingAccount))
  | 1 => some (.withdrawable (.current CurrentAccount.CurrentAccount))
  | 2 => some (.fixedTerm FixedTermAccount.FixedTermAccount)
  | _ => none

/-- The function `main`: the collections `{ savings, current }` and `{ fixed }`, the
client built from them, and one call of `processTransactions`. -/
def Program.main : Option (BankClient × Heap × Output) :=
  let withdrawableAccounts : List Ptr := [0, 1]
  let depositOnlyAccounts : List Ptr := [2]
  let client := BankClient.BankClient withdrawableAccounts depositOnlyAccounts
  client.processTransactions mainHeap

/-! ## Sequences of calls, and what a call reports -/

/-- A call a client can make on a `WithdrawableAccount`. -/
inductive Call where
  | deposit (amount : ℚ)
  | withdraw (amount : ℚ)
  deriving DecidableEq, Repr

/-- One call on a `WithdrawableAccount`. -/
def WithdrawableAccount.call (self : WithdrawableAccount) : Call → WithdrawableAccount × Output
  | .deposit amount => self.deposit amount
  | .withdraw amount => self.withdraw amount

/-- A sequence of calls on a `WithdrawableAccount`: the object and the output after
each call, in order. -/
def WithdrawableAccount.run (self : WithdrawableAccount) :
    List Call → List (WithdrawableAccount × Output)
  | [] => []
  | c :: cs => self.call c :: (self.call c).1.run cs

/-- A sequence of `deposit` calls on a `DepositOnlyAccount`: the object and the
output after each call, in order. -/
def DepositOnlyAccount.run (self : DepositOnlyAccount) :
    List ℚ → List (DepositOnlyAccount × Output)
  | [] => []
  | a :: as => self.deposit a :: (self.deposit a).1.run as

/-- Observer: the balance of the object at an address, if there is one. -/
def Heap.balance (h : Heap) (acc : Ptr) : Option ℚ :=
  (h acc).map DepositOnlyAccount.balance

/-- The account-kind name the class of the object uses in its messages. -/
def WithdrawableAccount.kind : WithdrawableAccount → String
  | .saving _ => "Savings"
  | .current _ => "Current"

/-- The account-kind name the class of the object uses in its messages. -/
def DepositOnlyAccount.kind : DepositOnlyAccount → String
  | .withdrawable acc => acc.kind
  | .fixedTerm _ => "Fixed Term"

/-- What a call reports, the account-kind name apart: a deposit with its amount and
the new balance, a withdrawal with its amount and the new balance, or insufficient
funds. -/
inductive Report where
  | deposited (amount newBalance : ℚ)
  | withdrawn (amount newBalance : ℚ)
  | insufficient
  deriving DecidableEq, Repr

/-- The console line of a report for the account kind named `kind`. -/
def Report.render (kind : String) : Report → Output
  | .deposited amount newBalance =>
    [.str "Deposited: ", .num amount, .str (" in " ++ kind ++ " Account. New Balance: "),
     .num newBalance, .endl]
  | .withdrawn amount newBalance =>
    [.str "Withdrawn: ", .num amount, .str (" from " ++ kind ++ " Account. New Balance: "),
     .num newBalance, .endl]
  | .insufficient =>
    [.str ("Insufficient funds in " ++ kind ++ " Account!\n")]

/-- The account contract in the spec's words (component design, account variants), on a
bare balance: `deposit(amount)` unconditionally increases the balance by `amount` and
reports the new balance; `withdraw(amount)` decreases the balance and reports success
if `balance >= amount`, and otherwise reports insufficient funds. -/
def AccountSpec.call (balance : ℚ) : Call → ℚ × Report
  | .deposit amount => (balance + amount, .deposited amount (balance + amount))
  | .withdraw amount =>
    if balance ≥ amount then (balance - amount, .withdrawn amount (balance - amount))
    else (balance, .insufficient)

/-- The contract of the spec over a sequence of calls: the balance and the report
after each call, in order. -/
def AccountSpec.run (balance : ℚ) : List Call → List (ℚ × Report)
  | [] => []
  | c :: cs => AccountSpec.call balance c :: AccountSpec.run (AccountSpec.call balance c).1 cs

/-- The number of line ends a piece puts on the console. -/
def Piece.newlines : Piece → ℕ
  | .str s => s.toList.count (Char.ofNat 10)
  | .num _ => 0
  | .endl => 1

/-- The number of lines written. -/
def lineCount (out : Output) : ℕ :=
  (out.map Piece.newlines).sum

/-! ## IEEE 754 binary64, the `double` of the source

Every finite binary64 value is a whole multiple of `2^(-1074)`, the smallest positive
one. A finite value is held as that multiple, so equality and order of finite values are
those of integers, and an exact sum or difference is an integer sum or difference, which
`Double.round` then brings back to 53 significant bits, ties to even, or to an infinity.
The two zeros are identified: they compare equal and no balance computed here tells
them apart; only the printed form of a zero amount could. -/

/-- A binary64 value: NaN, an infinity with its sign, or the finite value
`n * 2^(-1074)`. The binary64 values among the `fin n` are those that rounding leaves
unchanged (`Double.round n = fin n`); what is stated for every `Double` holds for
them. -/
inductive Double where
  | nan
  | inf (negative : Bool)
  | fin (n : ℤ)
  deriving DecidableEq, Repr

/-- The number of units `2^(-1074)` in 1. -/
def Double.scale : ℕ := 2 ^ 1074

/-- The position of the leading binary digit of `n`, for `1 ≤ n < 2^4096`, found by
bisection. -/
def Double.log2 (n : ℕ) : ℕ :=
  [2048, 1024, 512, 256, 128, 64, 32, 16, 8, 4, 2, 1].foldl
    (fun acc step => if 2 ^ (acc + step) ≤ n then acc + step else acc) 0

/-- Round a magnitude, in units, to 53 significant binary digits, to nearest and ties
to even. -/
def Double.roundNat (n : ℕ) : ℕ :=
  let shift := Double.log2 n - 52
  let q := n / 2 ^ shift
  let r := n % 2 ^ shift
  if 2 * r < 2 ^ shift then q * 2 ^ shift
  else if 2 ^ shift < 2 * r then (q + 1) * 2 ^ shift
  else if q % 2 = 0 then q * 2 ^ shift
  else (q + 1) * 2 ^ shift

/-- The binary64 value of an exact result of `n` units: the rounded magnitude with the
sign of `n`, or the infinity of that sign when the rounded magnitude reaches `2^1024`
(`2^2098` units). -/
def Double.round (n : ℤ) : Double :=
  if Double.roundNat n.natAbs < 2 ^ 2098 then .fin (n.sign * Int.ofNat (Double.roundNat n.natAbs))
  else .inf (decide (n < 0))

/-- Unary minus. -/
def Double.neg : Double → Double
  | .nan => .nan
  | .inf negative => .inf (!negative)
  | .fin n => .fin (-n)

/-- The sum `x + y` of the source. -/
def Double.add : Double → Double → Double
  | .nan, _ => .nan
  | _, .nan => .nan
  | .inf s, .inf t => if s = t then .inf s else .nan
  | .inf s, .fin _ => .inf s
  | .fin _, .inf t => .inf t
  | .fin m, .fin n => Double.round (m + n)

/-- The difference `x - y` of the source. -/
def Double.sub (x y : Double) : Double :=
  Double.add x (Double.neg y)

/-- The comparison `x >= y` of the source: false as soon as one side is NaN. -/
def Double.ge : Double → Double → Bool
  | .nan, _ => false
  | _, .nan => false
  | .inf s, .inf t => !s || t
  | .inf s, .fin _ => !s
  | .fin _, .inf t => t
  | .fin m, .fin n => decide (n ≤ m)

/-- The comparison `x > y`: false as soon as one side is NaN. -/
def Double.gt : Double → Double → Bool
  | .nan, _ => false
  | _, .nan => false
  | .inf s, .inf t => !s && t
  | .inf s, .fin _ => !s
  | .fin _, .inf t => t
  | .fin m, .fin n => decide (n < m)

/-- The conversion of a whole number to `double`, as for the literals `0`, `500`,
`1000` and `5000` of the source. -/
def Double.ofInt (k : ℤ) : Double :=
  Double.round (k * Int.ofNat Double.scale)

/-- Whether the value is finite. -/
def Double.isFinite : Double → Bool
  | .fin _ => true
  | _ => false

/-- Whether `x + y` is computed without rounding: both are finite and their exact sum is
a binary64 value. -/
def Double.exactAdd : Double → Double → Bool
  | .fin m, .fin n => decide (Double.round (m + n) = .fin (m + n))
  | _, _ => false

/-- Whether `x - y` is computed without rounding. -/
def Double.exactSub (x y : Double) : Bool :=
  Double.exactAdd x (Double.neg y)

/-- The real value of a finite binary64 value (0 for NaN and the infinities, which have
none). -/
def Double.toRat : Double → ℚ
  | .fin n => (n : ℚ) / (Double.scale : ℚ)
  | _ => 0

instance : Add Double := ⟨Double.add⟩

instance : Sub Double := ⟨Double.sub⟩

instance : Neg Double := ⟨Double.neg⟩

instance : LE Double := ⟨fun x y => Double.ge y x = true⟩

instance : LT Double := ⟨fun x y => Double.gt y x = true⟩

instance (n : ℕ) : OfNat Double n := ⟨Double.ofInt n⟩

instance (x y : Double) : Decidable (x ≤ y) :=
  inferInstanceAs (Decidable (Double.ge y x = true))

instance (x y : Double) : Decidable (x < y) :=
  inferInstanceAs (Decidable (Double.gt y x = true))

/-! ## The program on binary64

The classes, interfaces and client once more, with `double` as binary64. The text of
each function is that of its counterpart above; only the type of the amounts differs. -/

namespace Binary64

/-- One item inserted into `cout` by `<<`: a string literal, a `double`, or `endl`. -/
inductive Piece where
  | str (s : String)
  | num (x : Double)
  | endl
  deriving DecidableEq, Repr

/-- What a call wrote to `cout`, in insertion order. -/
abbrev Output := List Piece

/-- The class `SavingAccount`: its only data member is `double balance`. -/
structure SavingAccount where
  balance : Double
  deriving DecidableEq, Repr

/-- The class `CurrentAccount`: its only data member is `double balance`. -/
structure CurrentAccount where
  balance : Double
  deriving DecidableEq, Repr

/-- The class `FixedTermAccount`: its only data member is `double balance`. -/
structure FixedTermAccount where
  balance : Double
  deriving DecidableEq, Repr

/-- The member `SavingAccount::deposit(double amount)`. -/
def SavingAccount.deposit (self : SavingAccount) (amount : Double) : SavingAccount × Output :=
  let self : SavingAccount := { self with balance := self.balance + amount }
  (self, [.str "Deposited: ", .num amount, .str " in Savings Account. New Balance: ",
          .num self.balance, .endl])

/-- The member `SavingAccount::withdraw(double amount)`. -/
def SavingAccount.withdraw (self : SavingAccount) (amount : Double) : SavingAccount × Output :=
  if self.balance ≥ amount then
    let self : SavingAccount := { self with balance := self.balance - amount }
    (self, [.str "Withdrawn: ", .num amount, .str " from Savings Account. New Balance: ",
            .num self.balance, .endl])
  else
    (self, [.str "Insufficient funds in Savings Account!\n"])

/-- The constructor `SavingAccount::SavingAccount()`. -/
def SavingAccount.SavingAccount : SavingAccount :=
  { balance := 0 }

/-- The member `CurrentAccount::deposit(double amount)`. -/
def CurrentAccount.deposit (self : CurrentAccount) (amount : Double) :
    CurrentAccount × Output :=
  let self : CurrentAccount := { self with balance := self.balance + amount }
  (self, [.str "Deposited: ", .num amount, .str " in Current Account. New Balance: ",
          .num self.balance, .endl])

/-- The member `CurrentAccount::withdraw(double amount)`. -/
def CurrentAccount.withdraw (self : CurrentAccount) (amount : Double) :
    CurrentAccount × Output :=
  if self.balance ≥ amount then
    let self : CurrentAccount := { self with balance := self.balance - amount }
    (self, [.str "Withdrawn: ", .num amount, .str " from Current Account. New Balance: ",
            .num self.balance, .endl])
  else
    (self, [.str "Insufficient funds in Current Account!\n"])

/-- The constructor `CurrentAccount::CurrentAccount()`. -/
def CurrentAccount.CurrentAccount : CurrentAccount :=
  { balance := 0 }

/-- The member `FixedTermAccount::deposit(double amount)`. -/
def FixedTermAccount.deposit (self : FixedTermAccount) (amount : Double) :
    FixedTermAccount × Output :=
  let self : FixedTermAccount := { self with balance := self.balance + amount }
  (self, [.str "Deposited: ", .num amount, .str " in Fixed Term Account. New Balance: ",
          .num self.balance, .endl])

/-- The constructor `FixedTermAccount::FixedTermAccount()`. -/
def FixedTermAccount.FixedTermAccount : FixedTermAccount :=
  { balance := 0 }

/-- An object of a class derived from `WithdrawableAccount`. -/
inductive WithdrawableAccount where
  | saving (acc : SavingAccount)
  | current (acc : CurrentAccount)
  deriving DecidableEq, Repr

/-- An object of a class derived from `DepositOnlyAccount`. -/
inductive DepositOnlyAccount where
  | withdrawable (acc : WithdrawableAccount)
  | fixedTerm (acc : FixedTermAccount)
  deriving DecidableEq, Repr

/-- The virtual call `deposit(amount)` on a `WithdrawableAccount`. -/
def WithdrawableAccount.deposit (self : WithdrawableAccount) (amount : Double) :
    WithdrawableAccount × Output :=
  match self with
  | .saving acc => Prod.map .saving id (acc.deposit amount)
  | .current acc => Prod.map .current id (acc.deposit amount)

/-- The virtual call `withdraw(amount)` on a `WithdrawableAccount`. -/
def WithdrawableAccount.withdraw (self : WithdrawableAccount) (amount : Double) :
    WithdrawableAccount × Output :=
  match self with
  | .saving acc => Prod.map .saving id (acc.withdraw amount)
  | .current acc => Prod.map .current id (acc.withdraw amount)

/-- The virtual call `deposit(amount)` on a `DepositOnlyAccount`. -/
def DepositOnlyAccount.deposit (self : DepositOnlyAccount) (amount : Double) :
    DepositOnlyAccount × Output :=
  match self with
  | .withdrawable acc => Prod.map .withdrawable id (acc.deposit amount)
  | .fixedTerm acc => Prod.map .fixedTerm id (acc.deposit amount)

/-- Observer: the private `balance` of the object behind a `WithdrawableAccount`. -/
def WithdrawableAccount.balance : WithdrawableAccount → Double
  | .saving acc => acc.balance
  | .current acc => acc.balance

/-- Observer: the private `balance` of the object behind a `DepositOnlyAccount`. -/
def DepositOnlyAccount.balance : DepositOnlyAccount → Double
  | .withdrawable acc => acc.balance
  | .fixedTerm acc => acc.balance

/-- The account objects allocated with `new`, by address. -/
abbrev Heap := Ptr → Option DepositOnlyAccount

/-- Whether `acc` may be held in a `WithdrawableAccount*`: it points to a live
object of a class derived from `WithdrawableAccount`. -/
def Heap.isWithdrawable (h : Heap) (acc : Ptr) : Bool :=
  match h acc with
  | some (.withdrawable _) => true
  | _ => false

/-- Whether `acc` may be held in a `DepositOnlyAccount*`: it points to a live object. -/
def Heap.isDepositOnly (h : Heap) (acc : Ptr) : Bool :=
  (h acc).isSome

/-- Observer: the balance of the object at an address, if there is one. -/
def Heap.balance (h : Heap) (acc : Ptr) : Option Double :=
  (h acc).map DepositOnlyAccount.balance

/-- The call `acc->deposit(amount)` for `WithdrawableAccount* acc`: the object is
updated in place. No result when `acc` does not point to such an object. -/
def Heap.withdrawableDeposit (h : Heap) (acc : Ptr) (amount : Double) :
    Option (Heap × Output) :=
  match h acc with
  | some (.withdrawable obj) =>
    some (Function.update h acc (some (.withdrawable (obj.deposit amount).1)),
          (obj.deposit amount).2)
  | _ => none

/-- The call `acc->withdraw(amount)` for `WithdrawableAccount* acc`. -/
def Heap.withdrawableWithdraw (h : Heap) (acc : Ptr) (amount : Double) :
    Option (Heap × Output) :=
  match h acc with
  | some (.withdrawable obj) =>
    some (Function.update h acc (some (.withdrawable (obj.withdraw amount).1)),
          (obj.withdraw amount).2)
  | _ => none

/-- The call `acc->deposit(amount)` for `DepositOnlyAccount* acc`. -/
def Heap.depositOnlyDeposit (h : Heap) (acc : Ptr) (amount : Double) :
    Option (Heap × Output) :=
  match h acc with
  | some obj =>
    some (Function.update h acc (some (obj.deposit amount).1), (obj.deposit amount).2)
  | none => none

/-- The class `BankClient`: two vectors of pointers, one per capability. -/
structure BankClient where
  withdrawableAccounts : List Ptr
  depositOnlyAccounts : List Ptr
  deriving DecidableEq, Repr

/-- The first loop of `processTransactions`, over the remaining elements of
`withdrawableAccounts`: `acc->deposit(1000); acc->withdraw(500);`. -/
def BankClient.withdrawableLoop (h : Heap) : List Ptr → Option (Heap × Output)
  | [] => some (h, [])
  | acc :: rest => do
    let r1 ← h.withdrawableDeposit acc 1000
    let r2 ← r1.1.withdrawableWithdraw acc 500
    let r3 ← withdrawableLoop r2.1 rest
    pure (r3.1, r1.2 ++ r2.2 ++ r3.2)

/-- The second loop of `processTransactions`, over the remaining elements of
`depositOnlyAccounts`: `acc->deposit(5000);`. -/
def BankClient.depositOnlyLoop (h : Heap) : List Ptr → Option (Heap × Output)
  | [] => some (h, [])
  | acc :: rest => do
    let r1 ← h.depositOnlyDeposit acc 5000
    let r2 ← depositOnlyLoop r1.1 rest
    pure (r2.1, r1.2 ++ r2.2)

/-- The member `BankClient::processTransactions()`: the client after the call, the
heap after the call, and what the call wrote to `cout`. -/
def BankClient.processTransactions (self : BankClient) (h : Heap) :
    Option (BankClient × Heap × Output) := do
  let r1 ← BankClient.withdrawableLoop h self.withdrawableAccounts
  let r2 ← BankClient.depositOnlyLoop r1.1 self.depositOnlyAccounts
  pure (self, r2.1, r1.2 ++ r2.2)

/-- The constructor `BankClient::BankClient(withdrawableAccounts, depositOnlyAccounts)`. -/
def BankClient.BankClient (withdrawableAccounts depositOnlyAccounts : List Ptr) : BankClient :=
  { withdrawableAccounts := withdrawableAccounts, depositOnlyAccounts := depositOnlyAccounts }

/-- The heap of `main` after its three `new` expressions: `savings` at address 0,
`current` at address 1, `fixed` at address 2. -/
def mainHeap : Heap := fun p =>
  match p with
  | 0 => some (.withdrawable (.saving SavingAccount.SavingAccount))
  | 1 => some (.withdrawable (.current CurrentAccount.CurrentAccount))
  | 2 => some (.fixedTerm FixedTermAccount.FixedTermAccount)
  | _ => none

/-- A call a client can make on a `WithdrawableAccount`. -/
inductive Call where
  | deposit (amount : Double)
  | withdraw (amount : Double)
  deriving DecidableEq, Repr

/-- The amount passed in a call. -/
def Call.amount : Call → Double
  | .deposit amount => amount
  | .withdraw amount => amount

/-- One call on a `WithdrawableAccount`. -/
def WithdrawableAccount.call (self : WithdrawableAccount) : Call → WithdrawableAccount × Output
  | .deposit amount => self.deposit amount
  | .withdraw amount => self.withdraw amount

/-- A sequence of calls on a `WithdrawableAccount`: the object and the output after
each call, in order. -/
def WithdrawableAccount.run (self : WithdrawableAccount) :
    List Call → List (WithdrawableAccount × Output)
  | [] => []
  | c :: cs => self.call c :: (self.call c).1.run cs

/-- A sequence of `deposit` calls on a `DepositOnlyAccount`: the object and the
output after each call, in order. -/
def DepositOnlyAccount.run (self : DepositOnlyAccount) :
    List Double → List (DepositOnlyAccount × Output)
  | [] => []
  | a :: as => self.deposit a :: (self.deposit a).1.run as

end Binary64

/-! ## Single calls on the concrete classes -/

/-- C3: a freshly constructed account of each of the three classes has balance zero. -/
theorem constructed_balance_zero :
    SavingAccount.SavingAccount.balance = 0 ∧
    CurrentAccount.CurrentAccount.balance = 0 ∧
    FixedTermAccount.FixedTermAccount.balance = 0 :=
  ⟨rfl, rfl, rfl⟩

/-- C5: for `SavingAccount` and `CurrentAccount`, every balance `b` and amount `w`:
when `w > b`, `withdraw(w)` returns the object unchanged and writes exactly the
insufficient-funds line of its class; when `w ≤ b`, that line is not written. The call
has a result in both cases, and the result carries no error value. -/
theorem withdraw_insufficient_local (b w : ℚ) :
    (w > b →
      (SavingAccount.mk b).withdraw w =
        (SavingAccount.mk b, [.str "Insufficient funds in Savings Account!\n"]) ∧
      (CurrentAccount.mk b).withdraw w =
        (CurrentAccount.mk b, [.str "Insufficient funds in Current Account!\n"])) ∧
    (w ≤ b →
      Piece.str "Insufficient funds in Savings Account!\n" ∉
        ((SavingAccount.mk b).withdraw w).2 ∧
      Piece.str "Insufficient funds in Current Account!\n" ∉
        ((CurrentAccount.mk b).withdraw w).2) := by
  constructor
  · intro hgt
    have hn : ¬ w ≤ b := not_le.mpr hgt
    simp [SavingAccount.withdraw, CurrentAccount.withdraw, hn]
  · intro hle
    simp only [SavingAccount.withdraw, CurrentAccount.withdraw, ge_iff_le, hle, if_true]
    constructor <;> simp

/-- C5 at its example: withdrawing 500 from a balance of 0 leaves 0 and writes the
insufficient-funds line. -/
theorem withdraw_insufficient_local_witness :
    (SavingAccount.mk 0).withdraw 500 =
      (SavingAccount.mk 0, [.str "Insufficient funds in Savings Account!\n"]) ∧
    (CurrentAccount.mk 0).withdraw 500 =
      (CurrentAccount.mk 0, [.str "Insufficient funds in Current Account!\n"]) :=
  (withdraw_insufficient_local 0 500).1 (by norm_num)

theorem withdrawable_deposit_balance (acc : WithdrawableAccount) (a : ℚ) :
    (acc.deposit a).1.balance = acc.balance + a := by
  cases acc <;> rfl

theorem withdrawable_withdraw_balance (acc : WithdrawableAccount) (w : ℚ) :
    (acc.withdraw w).1.balance = if acc.balance ≥ w then acc.balance - w else acc.balance := by
  cases acc with
  | saving acc =>
    by_cases h : w ≤ acc.balance <;>
      simp [WithdrawableAccount.withdraw, WithdrawableAccount.balance,
        SavingAccount.withdraw, h]
  | current acc =>
    by_cases h : w ≤ acc.balance <;>
      simp [WithdrawableAccount.withdraw, WithdrawableAccount.balance,
        CurrentAccount.withdraw, h]

theorem depositOnly_deposit_balance (acc : DepositOnlyAccount) (a : ℚ) :
    (acc.deposit a).1.balance = acc.balance + a := by
  cases acc with
  | withdrawable acc =>
    simpa [DepositOnlyAccount.deposit, DepositOnlyAccount.balance] using
      withdrawable_deposit_balance acc a
  | fixedTerm acc => rfl

/-! ## The classes against the contract of the spec -/

/-- One call on a `SavingAccount` behind the interface is the call of the contract,
reported under the name `Savings`. -/
theorem saving_call_refines (b : ℚ) (c : Call) :
    (WithdrawableAccount.saving ⟨b⟩).call c =
      (.saving ⟨(AccountSpec.call b c).1⟩, (AccountSpec.call b c).2.render "Savings") := by
  cases c with
  | deposit a => rfl
  | withdraw w =>
    by_cases h : w ≤ b
    · simp only [WithdrawableAccount.call, WithdrawableAccount.withdraw,
        SavingAccount.withdraw, AccountSpec.call, ge_iff_le, h, if_true]
      rfl
    · simp only [WithdrawableAccount.call, WithdrawableAccount.withdraw,
        SavingAccount.withdraw, AccountSpec.call, ge_iff_le, h, if_false]
      rfl

/-- One call on a `CurrentAccount` behind the interface is the call of the contract,
reported under the name `Current`. -/
theorem current_call_refines (b : ℚ) (c : Call) :
    (WithdrawableAccount.current ⟨b⟩).call c =
      (.current ⟨(AccountSpec.call b c).1⟩, (AccountSpec.call b c).2.render "Current") := by
  cases c with
  | deposit a => rfl
  | withdraw w =>
    by_cases h : w ≤ b
    · simp only [WithdrawableAccount.call, WithdrawableAccount.withdraw,
        CurrentAccount.withdraw, AccountSpec.call, ge_iff_le, h, if_true]
      rfl
    · simp only [WithdrawableAccount.call, WithdrawableAccount.withdraw,
        CurrentAccount.withdraw, AccountSpec.call, ge_iff_le, h, if_false]
      rfl

theorem saving_run_refines (calls : List Call) :
    ∀ b : ℚ, (WithdrawableAccount.saving ⟨b⟩).run calls =
      (AccountSpec.run b calls).map
        (fun r => (WithdrawableAccount.saving ⟨r.1⟩, r.2.render "Savings")) := by
  induction calls with
  | nil => intro b; rfl
  | cons c cs ih =>
    intro b
    simp only [WithdrawableAccount.run, AccountSpec.run, List.map_cons, saving_call_refines, ih]

theorem current_run_refines (calls : List Call) :
    ∀ b : ℚ, (WithdrawableAccount.current ⟨b⟩).run calls =
      (AccountSpec.run b calls).map
        (fun r => (WithdrawableAccount.current ⟨r.1⟩, r.2.render "Current")) := by
  induction calls with
  | nil => intro b; rfl
  | cons c cs ih =>
    intro b
    simp only [WithdrawableAccount.run, AccountSpec.run, List.map_cons, current_call_refines, ih]

theorem fixedTerm_deposits_refine (amounts : List ℚ) :
    ∀ b : ℚ, (DepositOnlyAccount.fixedTerm ⟨b⟩).run amounts =
      (AccountSpec.run b (amounts.map Call.deposit)).map
        (fun r => (DepositOnlyAccount.fixedTerm ⟨r.1⟩, r.2.render "Fixed Term")) := by
  induction amounts with
  | nil => intro b; rfl
  | cons a as ih =>
    intro b
    have hstep : (DepositOnlyAccount.fixedTerm ⟨b⟩).deposit a =
        (.fixedTerm ⟨b + a⟩, (Report.deposited a (b + a)).render "Fixed Term") := rfl
    simp only [DepositOnlyAccount.run, AccountSpec.run, List.map_cons, AccountSpec.call,
      hstep, ih]

theorem saving_deposits_refine (amounts : List ℚ) :
    ∀ b : ℚ, (DepositOnlyAccount.withdrawable (.saving ⟨b⟩)).run amounts =
      (AccountSpec.run b (amounts.map Call.deposit)).map
        (fun r => (DepositOnlyAccount.withdrawable (.saving ⟨r.1⟩), r.2.render "Savings")) := by
  induction amounts with
  | nil => intro b; rfl
  | cons a as ih =>
    intro b
    have hstep : (DepositOnlyAccount.withdrawable (.saving ⟨b⟩)).deposit a =
        (.withdrawable (.saving ⟨b + a⟩), (Report.deposited a (b + a)).render "Savings") := rfl
    simp only [DepositOnlyAccount.run, AccountSpec.run, List.map_cons, AccountSpec.call,
      hstep, ih]

theorem current_deposits_refine (amounts : List ℚ) :
    ∀ b : ℚ, (DepositOnlyAccount.withdrawable (.current ⟨b⟩)).run amounts =
      (AccountSpec.run b (amounts.map Call.deposit)).map
        (fun r => (DepositOnlyAccount.withdrawable (.current ⟨r.1⟩), r.2.render "Current")) := by
  induction amounts with
  | nil => intro b; rfl
  | cons a as ih =>
    intro b
    have hstep : (DepositOnlyAccount.withdrawable (.current ⟨b⟩)).deposit a =
        (.withdrawable (.current ⟨b + a⟩), (Report.deposited a (b + a)).render "Current") := rfl
    simp only [DepositOnlyAccount.run, AccountSpec.run, List.map_cons, AccountSpec.call,
      hstep, ih]

/-- C10: from every initial balance `b`, over every finite sequence of calls,
`SavingAccount` and `CurrentAccount` behind `WithdrawableAccount` both follow the
contract of the spec step by step: after every call they hold the balance of the
contract and write the report of the contract (so the same success or insufficient-funds
branch), under the names `Savings` and `Current`; hence their balances agree after every
call. Over every sequence of deposits, `FixedTermAccount`, `SavingAccount` and
`CurrentAccount` behind `DepositOnlyAccount` follow the contract in the same way, and
their balances agree after every call. -/
theorem variants_substitutable (b : ℚ) (calls : List Call) (amounts : List ℚ) :
    ((WithdrawableAccount.saving ⟨b⟩).run calls =
        (AccountSpec.run b calls).map
          (fun r => (WithdrawableAccount.saving ⟨r.1⟩, r.2.render "Savings")) ∧
      (WithdrawableAccount.current ⟨b⟩).run calls =
        (AccountSpec.run b calls).map
          (fun r => (WithdrawableAccount.current ⟨r.1⟩, r.2.render "Current")) ∧
      ((WithdrawableAccount.saving ⟨b⟩).run calls).map (fun r => r.1.balance) =
        ((WithdrawableAccount.current ⟨b⟩).run calls).map (fun r => r.1.balance)) ∧
    ((DepositOnlyAccount.fixedTerm ⟨b⟩).run amounts =
        (AccountSpec.run b (amounts.map Call.deposit)).map
          (fun r => (DepositOnlyAccount.fixedTerm ⟨r.1⟩, r.2.render "Fixed Term")) ∧
      (DepositOnlyAccount.withdrawable (.saving ⟨b⟩)).run amounts =
        (AccountSpec.run b (amounts.map Call.deposit)).map
          (fun r => (DepositOnlyAccount.withdrawable (.saving ⟨r.1⟩), r.2.render "Savings")) ∧
      (DepositOnlyAccount.withdrawable (.current ⟨b⟩)).run amounts =
        (AccountSpec.run b (amounts.map Call.deposit)).map
          (fun r => (DepositOnlyAccount.withdrawable (.current ⟨r.1⟩), r.2.render "Current")) ∧
      ((DepositOnlyAccount.fixedTerm ⟨b⟩).run amounts).map (fun r => r.1.balance) =
        ((DepositOnlyAccount.withdrawable (.saving ⟨b⟩)).run amounts).map
          (fun r => r.1.balance) ∧
      ((DepositOnlyAccount.fixedTerm ⟨b⟩).run amounts).map (fun r => r.1.balance) =
        ((DepositOnlyAccount.withdrawable (.current ⟨b⟩)).run amounts).map
          (fun r => r.1.balance)) := by
  refine ⟨⟨saving_run_refines calls b, current_run_refines calls b, ?_⟩,
    fixedTerm_deposits_refine amounts b, saving_deposits_refine amounts b,
    current_deposits_refine amounts b, ?_, ?_⟩
  · rw [saving_run_refines, current_run_refines]
    simp [List.map_map, Function.comp_def, WithdrawableAccount.balance]
  · rw [fixedTerm_deposits_refine, saving_deposits_refine]
    simp [List.map_map, Function.comp_def, DepositOnlyAccount.balance,
      WithdrawableAccount.balance]
  · rw [fixedTerm_deposits_refine, current_deposits_refine]
    simp [List.map_map, Function.comp_def, DepositOnlyAccount.balance,
      WithdrawableAccount.balance]

/-! ## The client's loops -/

theorem withdrawable_deposit_kind (acc : WithdrawableAccount) (a : ℚ) :
    (acc.deposit a).1.kind = acc.kind := by
  cases acc <;> rfl

theorem withdrawable_withdraw_kind (acc : WithdrawableAccount) (w : ℚ) :
    (acc.withdraw w).1.kind = acc.kind := by
  cases acc with
  | saving acc =>
    by_cases h : w ≤ acc.balance <;>
      simp [WithdrawableAccount.withdraw, WithdrawableAccount.kind, SavingAccount.withdraw, h]
  | current acc =>
    by_cases h : w ≤ acc.balance <;>
      simp [WithdrawableAccount.withdraw, WithdrawableAccount.kind, CurrentAccount.withdraw, h]

theorem depositOnly_deposit_kind (acc : DepositOnlyAccount) (a : ℚ) :
    (acc.deposit a).1.kind = acc.kind := by
  cases acc with
  | withdrawable acc =>
    simpa [DepositOnlyAccount.deposit, DepositOnlyAccount.kind] using
      withdrawable_deposit_kind acc a
  | fixedTerm acc => rfl

theorem isWithdrawable_iff (h : Heap) (p : Ptr) :
    h.isWithdrawable p = true ↔ ∃ w, h p = some (.withdrawable w) := by
  unfold Heap.isWithdrawable
  split
  · next w hw => simp [hw]
  · next hne =>
    simp only [Bool.false_eq_true, false_iff, not_exists]
    intro w hw
    exact hne w hw

/-- One round of the first loop at a pointer to a withdrawable object: the object is
replaced by its state after `deposit(1000)` then `withdraw(500)`, and the two messages
come first in the output. -/
theorem withdrawableLoop_cons (h : Heap) (p : Ptr) (ps : List Ptr) (w : WithdrawableAccount)
    (hp : h p = some (.withdrawable w)) :
    BankClient.withdrawableLoop h (p :: ps) =
      (BankClient.withdrawableLoop
        (Function.update h p (some (.withdrawable ((w.deposit 1000).1.withdraw 500).1))) ps).map
        (fun r => (r.1, (w.deposit 1000).2 ++ ((w.deposit 1000).1.withdraw 500).2 ++ r.2)) := by
  simp only [BankClient.withdrawableLoop, Heap.withdrawableDeposit, Heap.withdrawableWithdraw,
    hp, Function.update_same, Function.update_idem, Option.bind_eq_bind, Option.some_bind,
    Option.pure_def]
  cases BankClient.withdrawableLoop
    (Function.update h p (some (.withdrawable ((w.deposit 1000).1.withdraw 500).1))) ps <;> rfl

/-- One round of the second loop at a pointer to a live object. -/
theorem depositOnlyLoop_cons (h : Heap) (p : Ptr) (ps : List Ptr) (d : DepositOnlyAccount)
    (hp : h p = some d) :
    BankClient.depositOnlyLoop h (p :: ps) =
      (BankClient.depositOnlyLoop (Function.update h p (some (d.deposit 5000).1)) ps).map
        (fun r => (r.1, (d.deposit 5000).2 ++ r.2)) := by
  simp only [BankClient.depositOnlyLoop, Heap.depositOnlyDeposit, hp, Option.bind_eq_bind,
    Option.some_bind, Option.pure_def]
  cases BankClient.depositOnlyLoop (Function.update h p (some (d.deposit 5000).1)) ps <;> rfl

/-- The first loop has a result on a well-typed collection. Its output is the
concatenation, in list order, of the `deposit(1000)` and `withdraw(500)` messages of
one object per pointer, of the class of the object at that pointer; classes are kept
and the heap is unchanged off the collection; on a duplicate-free collection the objects
are those of the initial heap, each replaced by its state after the two calls. -/
theorem withdrawableLoop_spec (ws : List Ptr) :
    ∀ h : Heap, (∀ p ∈ ws, h.isWithdrawable p = true) →
    ∃ (h' : Heap) (pre : List WithdrawableAccount),
      BankClient.withdrawableLoop h ws =
        some (h', pre.flatMap
          (fun w => (w.deposit 1000).2 ++ ((w.deposit 1000).1.withdraw 500).2)) ∧
      ws.map (fun p => (h p).map DepositOnlyAccount.kind) = pre.map (fun w => some w.kind) ∧
      (∀ q, (h' q).map DepositOnlyAccount.kind = (h q).map DepositOnlyAccount.kind) ∧
      (∀ q, q ∉ ws → h' q = h q) ∧
      (ws.Nodup →
        ws.map h = pre.map (fun w => some (DepositOnlyAccount.withdrawable w)) ∧
        ws.map h' = pre.map (fun w => some
          (DepositOnlyAccount.withdrawable ((w.deposit 1000).1.withdraw 500).1))) := by
  induction ws with
  | nil =>
    intro h _
    exact ⟨h, [], rfl, rfl, fun _ => rfl, fun _ _ => rfl, fun _ => ⟨rfl, rfl⟩⟩
  | cons p ps ih =>
    intro h hty
    obtain ⟨w, hp⟩ := (isWithdrawable_iff h p).mp (hty p (List.mem_cons_self _ _))
    have hkind1 : ∀ q, ((Function.update h p (some (DepositOnlyAccount.withdrawable
        ((w.deposit 1000).1.withdraw 500).1))) q).map DepositOnlyAccount.kind =
        (h q).map DepositOnlyAccount.kind := by
      intro q
      by_cases hq : q = p
      · subst hq
        simp [hp, DepositOnlyAccount.kind, withdrawable_withdraw_kind,
          withdrawable_deposit_kind]
      · rw [Function.update_noteq hq]
    have hty1 : ∀ q ∈ ps, Heap.isWithdrawable (Function.update h p
        (some (DepositOnlyAccount.withdrawable ((w.deposit 1000).1.withdraw 500).1))) q
        = true := by
      intro q hq
      by_cases hqp : q = p
      · subst hqp
        simp [Heap.isWithdrawable]
      · have := hty q (List.mem_cons_of_mem _ hq)
        simpa [Heap.isWithdrawable, Function.update_noteq hqp] using this
    obtain ⟨h', pre, hrun, hk, hkp, hframe, hnd⟩ := ih _ hty1
    refine ⟨h', w :: pre, ?_, ?_, ?_, ?_, ?_⟩
    · rw [withdrawableLoop_cons h p ps w hp, hrun]
      simp [List.flatMap_cons, List.append_assoc]
    · simp only [List.map_cons, hp, Option.map_some', DepositOnlyAccount.kind]
      rw [← hk]
      congr 1
      exact List.map_congr_left (fun q _ => (hkind1 q).symm)
    · intro q
      rw [hkp q, hkind1 q]
    · intro q hq
      have hqp : q ≠ p := fun e => hq (e ▸ List.mem_cons_self _ _)
      have hqps : q ∉ ps := fun e => hq (List.mem_cons_of_mem _ e)
      rw [hframe q hqps, Function.update_noteq hqp]
    · intro hnodup
      have hpps : p ∉ ps := (List.nodup_cons.mp hnodup).1
      obtain ⟨h1, h2⟩ := hnd (List.nodup_cons.mp hnodup).2
      constructor
      · simp only [List.map_cons, hp]
        rw [← h1]
        congr 1
        refine List.map_congr_left (fun q hq => ?_)
        have hqp : q ≠ p := fun e => hpps (e ▸ hq)
        rw [Function.update_noteq hqp]
      · simp only [List.map_cons]
        rw [← h2, hframe p hpps, Function.update_same]

/-- The second loop has a result on a collection of live pointers. Its output is the
concatenation, in list order, of the `deposit(5000)` message of one object per pointer,
of the class of the object at that pointer; classes are kept and the heap is unchanged
off the collection; on a duplicate-free collection the objects are those of the initial
heap, each replaced by its state after the call. -/
theorem depositOnlyLoop_spec (ds : List Ptr) :
    ∀ h : Heap, (∀ p ∈ ds, h.isDepositOnly p = true) →
    ∃ (h' : Heap) (pre : List DepositOnlyAccount),
      BankClient.depositOnlyLoop h ds =
        some (h', pre.flatMap (fun d => (d.deposit 5000).2)) ∧
      ds.map (fun p => (h p).map DepositOnlyAccount.kind) = pre.map (fun d => some d.kind) ∧
      (∀ q, (h' q).map DepositOnlyAccount.kind = (h q).map DepositOnlyAccount.kind) ∧
      (∀ q, q ∉ ds → h' q = h q) ∧
      (ds.Nodup →
        ds.map h = pre.map some ∧
        ds.map h' = pre.map (fun d => some (d.deposit 5000).1)) := by
  induction ds with
  | nil =>
    intro h _
    exact ⟨h, [], rfl, rfl, fun _ => rfl, fun _ _ => rfl, fun _ => ⟨rfl, rfl⟩⟩
  | cons p ps ih =>
    intro h hty
    obtain ⟨d, hp⟩ := Option.isSome_iff_exists.mp (hty p (List.mem_cons_self _ _))
    have hkind1 : ∀ q, ((Function.update h p (some (d.deposit 5000).1)) q).map
        DepositOnlyAccount.kind = (h q).map DepositOnlyAccount.kind := by
      intro q
      by_cases hq : q = p
      · subst hq
        simp [hp, depositOnly_deposit_kind]
      · rw [Function.update_noteq hq]
    have hty1 : ∀ q ∈ ps,
        Heap.isDepositOnly (Function.update h p (some (d.deposit 5000).1)) q = true := by
      intro q hq
      by_cases hqp : q = p
      · subst hqp
        simp [Heap.isDepositOnly]
      · have := hty q (List.mem_cons_of_mem _ hq)
        simpa [Heap.isDepositOnly, Function.update_noteq hqp] using this
    obtain ⟨h', pre, hrun, hk, hkp, hframe, hnd⟩ := ih _ hty1
    refine ⟨h', d :: pre, ?_, ?_, ?_, ?_, ?_⟩
    · rw [depositOnlyLoop_cons h p ps d hp, hrun]
      simp [List.flatMap_cons]
    · simp only [List.map_cons, hp, Option.map_some']
      rw [← hk]
      congr 1
      exact List.map_congr_left (fun q _ => (hkind1 q).symm)
    · intro q
      rw [hkp q, hkind1 q]
    · intro q hq
      have hqp : q ≠ p := fun e => hq (e ▸ List.mem_cons_self _ _)
      have hqps : q ∉ ps := fun e => hq (List.mem_cons_of_mem _ e)
      rw [hframe q hqps, Function.update_noteq hqp]
    · intro hnodup
      have hpps : p ∉ ps := (List.nodup_cons.mp hnodup).1
      obtain ⟨h1, h2⟩ := hnd (List.nodup_cons.mp hnodup).2
      constructor
      · simp only [List.map_cons, hp]
        rw [← h1]
        congr 1
        refine List.map_congr_left (fun q hq => ?_)
        have hqp : q ≠ p := fun e => hpps (e ▸ hq)
        rw [Function.update_noteq hqp]
      · simp only [List.map_cons]
        rw [← h2, hframe p hpps, Function.update_same]

theorem isDepositOnly_of_kind (h h' : Heap)
    (hk : ∀ q, (h' q).map DepositOnlyAccount.kind = (h q).map DepositOnlyAccount.kind)
    (p : Ptr) (hp : h.isDepositOnly p = true) : h'.isDepositOnly p = true := by
  have := hk p
  unfold Heap.isDepositOnly at *
  cases hq : h' p with
  | none =>
    rw [hq] at this
    cases hq2 : h p with
    | none => rw [hq2] at hp; simp at hp
    | some d => rw [hq2] at this; simp at this
  | some d => rfl

theorem lineCount_append (a b : Output) : lineCount (a ++ b) = lineCount a + lineCount b := by
  simp [lineCount, List.map_append, List.sum_append]

theorem withdrawable_deposit_lines (acc : WithdrawableAccount) (a : ℚ) :
    lineCount (acc.deposit a).2 = 1 := by
  cases acc <;> rfl

theorem withdrawable_withdraw_lines (acc : WithdrawableAccount) (w : ℚ) :
    lineCount (acc.withdraw w).2 = 1 := by
  cases acc with
  | saving acc =>
    by_cases h : w ≤ acc.balance
    · simp only [WithdrawableAccount.withdraw, SavingAccount.withdraw, ge_iff_le, h, if_true,
        Prod.map_snd, id]
      rfl
    · simp only [WithdrawableAccount.withdraw, SavingAccount.withdraw, ge_iff_le, h, if_false,
        Prod.map_snd, id]
      rfl
  | current acc =>
    by_cases h : w ≤ acc.balance
    · simp only [WithdrawableAccount.withdraw, CurrentAccount.withdraw, ge_iff_le, h, if_true,
        Prod.map_snd, id]
      rfl
    · simp only [WithdrawableAccount.withdraw, CurrentAccount.withdraw, ge_iff_le, h, if_false,
        Prod.map_snd, id]
      rfl

theorem depositOnly_deposit_lines (acc : DepositOnlyAccount) (a : ℚ) :
    lineCount (acc.deposit a).2 = 1 := by
  cases acc with
  | withdrawable acc =>
    simpa [DepositOnlyAccount.deposit] using withdrawable_deposit_lines acc a
  | fixedTerm acc => rfl

theorem withdrawable_round_lines (pw : List WithdrawableAccount) :
    lineCount (pw.flatMap
      (fun w => (w.deposit 1000).2 ++ ((w.deposit 1000).1.withdraw 500).2)) =
      2 * pw.length := by
  induction pw with
  | nil => rfl
  | cons w ws ih =>
    rw [List.flatMap_cons, lineCount_append, lineCount_append, ih,
      withdrawable_deposit_lines, withdrawable_withdraw_lines, List.length_cons]
    ring

theorem depositOnly_round_lines (pd : List DepositOnlyAccount) :
    lineCount (pd.flatMap (fun d => (d.deposit 5000).2)) = pd.length := by
  induction pd with
  | nil => rfl
  | cons d ds ih =>
    rw [List.flatMap_cons, lineCount_append, ih, depositOnly_deposit_lines, List.length_cons]
    ring

/-- C7: on a client whose collections hold pointers to live objects of the right
capability, `processTransactions` has a result and its log is the concatenation, for
each pointer of `withdrawableAccounts` in list order, of the `deposit(1000)` message
followed by the `withdraw(500)` message of an object of the class at that pointer,
followed by, for each pointer of `depositOnlyAccounts` in list order, the
`deposit(5000)` message of an object of the class at that pointer; the log has
`2 * |withdrawableAccounts| + |depositOnlyAccounts|` lines; and when the pointers are
all distinct the objects are those of the initial heap. -/
theorem processTransactions_log (c : BankClient) (h : Heap)
    (hw : ∀ p ∈ c.withdrawableAccounts, h.isWithdrawable p = true)
    (hd : ∀ p ∈ c.depositOnlyAccounts, h.isDepositOnly p = true) :
    ∃ (h' : Heap) (pw : List WithdrawableAccount) (pd : List DepositOnlyAccount),
      c.processTransactions h = some (c, h',
        pw.flatMap (fun w => (w.deposit 1000).2 ++ ((w.deposit 1000).1.withdraw 500).2) ++
          pd.flatMap (fun d => (d.deposit 5000).2)) ∧
      c.withdrawableAccounts.map (fun p => (h p).map DepositOnlyAccount.kind) =
        pw.map (fun w => some w.kind) ∧
      c.depositOnlyAccounts.map (fun p => (h p).map DepositOnlyAccount.kind) =
        pd.map (fun d => some d.kind) ∧
      lineCount
        (pw.flatMap (fun w => (w.deposit 1000).2 ++ ((w.deposit 1000).1.withdraw 500).2) ++
          pd.flatMap (fun d => (d.deposit 5000).2)) =
        2 * c.withdrawableAccounts.length + c.depositOnlyAccounts.length ∧
      ((c.withdrawableAccounts ++ c.depositOnlyAccounts).Nodup →
        c.withdrawableAccounts.map h =
          pw.map (fun w => some (DepositOnlyAccount.withdrawable w)) ∧
        c.depositOnlyAccounts.map h = pd.map some) := by
  obtain ⟨h1, pw, hrun1, hk1, hkp1, hframe1, hnd1⟩ :=
    withdrawableLoop_spec c.withdrawableAccounts h hw
  obtain ⟨h2, pd, hrun2, hk2, -, -, hnd2⟩ :=
    depositOnlyLoop_spec c.depositOnlyAccounts h1
      (fun p hp => isDepositOnly_of_kind h h1 hkp1 p (hd p hp))
  have hlw : pw.length = c.withdrawableAccounts.length := by
    simpa using (congrArg List.length hk1).symm
  have hld : pd.length = c.depositOnlyAccounts.length := by
    simpa using (congrArg List.length hk2).symm
  refine ⟨h2, pw, pd, ?_, hk1, ?_, ?_, ?_⟩
  · simp only [BankClient.processTransactions, hrun1, hrun2, Option.bind_eq_bind,
      Option.some_bind, Option.pure_def]
  · rw [← hk2]
    exact List.map_congr_left (fun q _ => (hkp1 q).symm)
  · rw [lineCount_append, withdrawable_round_lines, depositOnly_round_lines, hlw, hld]
  · intro hdistinct
    obtain ⟨hndw, hndd, hdisj⟩ := List.nodup_append.mp hdistinct
    refine ⟨(hnd1 hndw).1, ?_⟩
    rw [← (hnd2 hndd).1]
    refine List.map_congr_left (fun q hq => ?_)
    exact (hframe1 q (fun hmem => hdisj hmem hq)).symm

/-- C7 on the collections of `main`, `{ savings, current }` and `{ fixed }`: the log is
the five lines Savings deposit, Savings withdraw, Current deposit, Current withdraw,
Fixed Term deposit. -/
theorem processTransactions_log_witness :
    (∃ (h' : Heap) (pw : List WithdrawableAccount) (pd : List DepositOnlyAccount),
      (BankClient.BankClient [0, 1] [2]).processTransactions mainHeap =
        some (BankClient.BankClient [0, 1] [2], h',
          pw.flatMap (fun w => (w.deposit 1000).2 ++ ((w.deposit 1000).1.withdraw 500).2) ++
            pd.flatMap (fun d => (d.deposit 5000).2)) ∧
      lineCount
        (pw.flatMap (fun w => (w.deposit 1000).2 ++ ((w.deposit 1000).1.withdraw 500).2) ++
          pd.flatMap (fun d => (d.deposit 5000).2)) = 5) ∧
    Program.main.map (fun r => r.2.2) = some
      [.str "Deposited: ", .num 1000, .str " in Savings Account. New Balance: ", .num 1000,
        .endl,
       .str "Withdrawn: ", .num 500, .str " from Savings Account. New Balance: ", .num 500,
        .endl,
       .str "Deposited: ", .num 1000, .str " in Current Account. New Balance: ", .num 1000,
        .endl,
       .str "Withdrawn: ", .num 500, .str " from Current Account. New Balance: ", .num 500,
        .endl,
       .str "Deposited: ", .num 5000, .str " in Fixed Term Account. New Balance: ", .num 5000,
        .endl] := by
  constructor
  · obtain ⟨h', pw, pd, hrun, -, -, hlines, -⟩ :=
      processTransactions_log (BankClient.BankClient [0, 1] [2]) mainHeap
        (by decide) (by decide)
    exact ⟨h', pw, pd, hrun, hlines⟩
  · norm_num [Program.main, BankClient.processTransactions, BankClient.withdrawableLoop,
      BankClient.depositOnlyLoop, Heap.withdrawableDeposit, Heap.withdrawableWithdraw,
      Heap.depositOnlyDeposit, BankClient.BankClient, mainHeap,
      WithdrawableAccount.deposit, WithdrawableAccount.withdraw, DepositOnlyAccount.deposit,
      SavingAccount.deposit, SavingAccount.withdraw, CurrentAccount.deposit,
      CurrentAccount.withdraw, FixedTermAccount.deposit, SavingAccount.SavingAccount,
      CurrentAccount.CurrentAccount, FixedTermAccount.FixedTermAccount, Function.update]

/-! ## The examples of the spec, and what a line reports -/

/-- C12: for `SavingAccount` and `CurrentAccount`, `deposit(1000)` on a freshly
constructed account followed by `withdraw(500)` leaves the balance at exactly 500, and
the withdrawal writes its success line (so no insufficient-funds line). -/
theorem deposit_1000_withdraw_500 :
    (SavingAccount.SavingAccount.deposit 1000).1.withdraw 500 =
      (SavingAccount.mk 500,
        [.str "Withdrawn: ", .num 500, .str " from Savings Account. New Balance: ", .num 500,
         .endl]) ∧
    (CurrentAccount.CurrentAccount.deposit 1000).1.withdraw 500 =
      (CurrentAccount.mk 500,
        [.str "Withdrawn: ", .num 500, .str " from Current Account. New Balance: ", .num 500,
         .endl]) := by
  norm_num [SavingAccount.deposit, SavingAccount.withdraw, SavingAccount.SavingAccount,
    CurrentAccount.deposit, CurrentAccount.withdraw, CurrentAccount.CurrentAccount]

/-- C13: `deposit(5000)` on a freshly constructed `FixedTermAccount` leaves the balance
at exactly 5000, called on the class or through `DepositOnlyAccount`; and so does
`deposit(5000)` through `DepositOnlyAccount` on a freshly constructed `SavingAccount`
or `CurrentAccount`, and on any object whose balance is 0. -/
theorem deposit_5000_fresh :
    (FixedTermAccount.FixedTermAccount.deposit 5000).1.balance = 5000 ∧
    ((DepositOnlyAccount.fixedTerm FixedTermAccount.FixedTermAccount).deposit 5000).1 =
      .fixedTerm ⟨5000⟩ ∧
    ((DepositOnlyAccount.withdrawable (.saving SavingAccount.SavingAccount)).deposit 5000).1 =
      .withdrawable (.saving ⟨5000⟩) ∧
    ((DepositOnlyAccount.withdrawable (.current CurrentAccount.CurrentAccount)).deposit 5000).1 =
      .withdrawable (.current ⟨5000⟩) ∧
    (∀ acc : DepositOnlyAccount, acc.balance = 0 → (acc.deposit 5000).1.balance = 5000) := by
  refine ⟨?_, ?_, ?_, ?_, ?_⟩
  · norm_num [FixedTermAccount.deposit, FixedTermAccount.FixedTermAccount]
  · norm_num [DepositOnlyAccount.deposit, FixedTermAccount.deposit,
      FixedTermAccount.FixedTermAccount]
  · norm_num [DepositOnlyAccount.deposit, WithdrawableAccount.deposit, SavingAccount.deposit,
      SavingAccount.SavingAccount]
  · norm_num [DepositOnlyAccount.deposit, WithdrawableAccount.deposit, CurrentAccount.deposit,
      CurrentAccount.CurrentAccount]
  · intro acc hacc
    rw [depositOnly_deposit_balance, hacc, zero_add]

theorem map_pair_at_mem {α β γ δ : Type} (f : α → γ) (g : β → γ) (f' : α → δ) (g' : β → δ) :
    ∀ (xs : List α) (ys : List β), xs.map f = ys.map g → xs.map f' = ys.map g' →
      ∀ x ∈ xs, ∃ y ∈ ys, f x = g y ∧ f' x = g' y := by
  intro xs
  induction xs with
  | nil => intro ys _ _ x hx; simp at hx
  | cons x0 xs ih =>
    intro ys h1 h2 x hx
    cases ys with
    | nil => simp at h1
    | cons y0 ys =>
      simp only [List.map_cons, List.cons.injEq] at h1 h2
      rcases List.mem_cons.mp hx with rfl | hx
      · exact ⟨y0, List.mem_cons_self _ _, h1.1, h2.1⟩
      · obtain ⟨y, hy, e1, e2⟩ := ih ys h1.2 h2.2 x hx
        exact ⟨y, List.mem_cons_of_mem _ hy, e1, e2⟩

/-- The balance after `deposit(1000)` then `withdraw(500)`, from the balance before. -/
theorem withdrawable_round_balance (acc : WithdrawableAccount) :
    ((acc.deposit 1000).1.withdraw 500).1.balance =
      if acc.balance + 1000 ≥ 500 then acc.balance + 1000 - 500 else acc.balance + 1000 := by
  rw [withdrawable_withdraw_balance, withdrawable_deposit_balance]

/-- On a client whose pointers are all distinct and well typed, `processTransactions`
has a result: the client as it was, the log of the rounds on the initial objects, and
a heap in which every listed object has had its round, the others being untouched. -/
theorem processTransactions_distinct (c : BankClient) (h : Heap)
    (hw : ∀ p ∈ c.withdrawableAccounts, h.isWithdrawable p = true)
    (hd : ∀ p ∈ c.depositOnlyAccounts, h.isDepositOnly p = true)
    (hdistinct : (c.withdrawableAccounts ++ c.depositOnlyAccounts).Nodup) :
    ∃ (h' : Heap) (pw : List WithdrawableAccount) (pd : List DepositOnlyAccount),
      c.processTransactions h = some (c, h',
        pw.flatMap (fun w => (w.deposit 1000).2 ++ ((w.deposit 1000).1.withdraw 500).2) ++
          pd.flatMap (fun d => (d.deposit 5000).2)) ∧
      c.withdrawableAccounts.map h =
        pw.map (fun w => some (DepositOnlyAccount.withdrawable w)) ∧
      c.withdrawableAccounts.map h' =
        pw.map (fun w => some
          (DepositOnlyAccount.withdrawable ((w.deposit 1000).1.withdraw 500).1)) ∧
      c.depositOnlyAccounts.map h = pd.map some ∧
      c.depositOnlyAccounts.map h' = pd.map (fun d => some (d.deposit 5000).1) ∧
      (∀ q, q ∉ c.withdrawableAccounts → q ∉ c.depositOnlyAccounts → h' q = h q) := by
  obtain ⟨hndw, hndd, hdisj⟩ := List.nodup_append.mp hdistinct
  obtain ⟨h1, pw, hrun1, -, hkp1, hframe1, hnd1⟩ :=
    withdrawableLoop_spec c.withdrawableAccounts h hw
  obtain ⟨h2, pd, hrun2, -, -, hframe2, hnd2⟩ :=
    depositOnlyLoop_spec c.depositOnlyAccounts h1
      (fun p hp => isDepositOnly_of_kind h h1 hkp1 p (hd p hp))
  obtain ⟨hw0, hw1⟩ := hnd1 hndw
  obtain ⟨hd0, hd1⟩ := hnd2 hndd
  refine ⟨h2, pw, pd, ?_, hw0, ?_, ?_, hd1, ?_⟩
  · simp only [BankClient.processTransactions, hrun1, hrun2, Option.bind_eq_bind,
      Option.some_bind, Option.pure_def]
  · rw [← hw1]
    exact List.map_congr_left (fun q hq => hframe2 q (fun hmem => hdisj hq hmem))
  · rw [← hd0]
    exact List.map_congr_left (fun q hq => (hframe1 q (fun hmem => hdisj hmem hq)).symm)
  · intro q hqw hqd
    rw [hframe2 q hqd, hframe1 q hqw]

/-- Balances of the withdrawable objects after their round, pointer by pointer. -/
theorem withdrawable_balances_of_maps (h h' : Heap) (ws : List Ptr)
    (pw : List WithdrawableAccount)
    (h0 : ws.map h = pw.map (fun w => some (DepositOnlyAccount.withdrawable w)))
    (h1 : ws.map h' = pw.map (fun w => some
      (DepositOnlyAccount.withdrawable ((w.deposit 1000).1.withdraw 500).1))) :
    ∀ p ∈ ws, h'.isWithdrawable p = true ∧
      h'.balance p = (h.balance p).map
        (fun b => if b + 1000 ≥ 500 then b + 1000 - 500 else b + 1000) := by
  intro p hp
  obtain ⟨w, -, e0, e1⟩ := map_pair_at_mem _ _ _ _ ws pw h0 h1 p hp
  constructor
  · simp [Heap.isWithdrawable, e1]
  · simp only [Heap.balance, e0, e1, Option.map_some', DepositOnlyAccount.balance,
      withdrawable_round_balance]

/-- Balances of the deposit-only objects after their deposit, pointer by pointer. -/
theorem depositOnly_balances_of_maps (h h' : Heap) (ds : List Ptr)
    (pd : List DepositOnlyAccount)
    (h0 : ds.map h = pd.map some)
    (h1 : ds.map h' = pd.map (fun d => some (d.deposit 5000).1)) :
    ∀ p ∈ ds, h'.isDepositOnly p = true ∧
      h'.balance p = (h.balance p).map (fun b => b + 5000) := by
  intro p hp
  obtain ⟨d, -, e0, e1⟩ := map_pair_at_mem _ _ _ _ ds pd h0 h1 p hp
  constructor
  · simp [Heap.isDepositOnly, e1]
  · simp only [Heap.balance, e0, e1, Option.map_some', depositOnly_deposit_balance]

/-- A `deposit` through a `WithdrawableAccount*` has a result on a well-typed pointer
and touches no other address. -/
theorem withdrawableDeposit_frame (h : Heap) (p : Ptr) (a : ℚ)
    (hp : h.isWithdrawable p = true) :
    ∃ (h1 : Heap) (out : Output), h.withdrawableDeposit p a = some (h1, out) ∧
      ∀ q, q ≠ p → h1 q = h q := by
  obtain ⟨w, hw⟩ := (isWithdrawable_iff h p).mp hp
  refine ⟨Function.update h p (some (.withdrawable (w.deposit a).1)), (w.deposit a).2,
    by simp only [Heap.withdrawableDeposit, hw], ?_⟩
  intro q hq
  exact Function.update_noteq hq _ _

/-- A `withdraw` through a `WithdrawableAccount*` has a result on a well-typed pointer
and touches no other address. -/
theorem withdrawableWithdraw_frame (h : Heap) (p : Ptr) (a : ℚ)
    (hp : h.isWithdrawable p = true) :
    ∃ (h1 : Heap) (out : Output), h.withdrawableWithdraw p a = some (h1, out) ∧
      ∀ q, q ≠ p → h1 q = h q := by
  obtain ⟨w, hw⟩ := (isWithdrawable_iff h p).mp hp
  refine ⟨Function.update h p (some (.withdrawable (w.withdraw a).1)), (w.withdraw a).2,
    by simp only [Heap.withdrawableWithdraw, hw], ?_⟩
  intro q hq
  exact Function.update_noteq hq _ _

/-- A `deposit` through a `DepositOnlyAccount*` has a result on a live pointer and
touches no other address. -/
theorem depositOnlyDeposit_frame (h : Heap) (p : Ptr) (a : ℚ)
    (hp : h.isDepositOnly p = true) :
    ∃ (h1 : Heap) (out : Output), h.depositOnlyDeposit p a = some (h1, out) ∧
      ∀ q, q ≠ p → h1 q = h q := by
  obtain ⟨d, hd⟩ := Option.isSome_iff_exists.mp hp
  refine ⟨Function.update h p (some (d.deposit a).1), (d.deposit a).2,
    by simp only [Heap.depositOnlyDeposit, hd], ?_⟩
  intro q hq
  exact Function.update_noteq hq _ _

/-- C11: each object has its own balance. A `deposit` or a `withdraw` through a pointer
to a live object of the right capability has a result and leaves the balance at every
other address as it was. Hence, on a client whose pointers are all distinct,
`processTransactions` leaves at each pointer of `withdrawableAccounts` the balance
`b + 1000 - 500` if `b + 1000 ≥ 500` and `b + 1000` otherwise, and at each pointer of
`depositOnlyAccounts` the balance `b + 5000`, where `b` is the initial balance at that
same pointer: a function of that balance alone, whatever the other accounts, their
number, classes and balances; balances at all other addresses are unchanged. -/
theorem balances_independent (c : BankClient) (h : Heap)
    (hw : ∀ p ∈ c.withdrawableAccounts, h.isWithdrawable p = true)
    (hd : ∀ p ∈ c.depositOnlyAccounts, h.isDepositOnly p = true)
    (hdistinct : (c.withdrawableAccounts ++ c.depositOnlyAccounts).Nodup) :
    (∀ (p : Ptr) (a : ℚ), h.isWithdrawable p = true →
      (∃ (h1 : Heap) (out : Output), h.withdrawableDeposit p a = some (h1, out) ∧
        ∀ q, q ≠ p → h1.balance q = h.balance q) ∧
      (∃ (h1 : Heap) (out : Output), h.withdrawableWithdraw p a = some (h1, out) ∧
        ∀ q, q ≠ p → h1.balance q = h.balance q)) ∧
    (∀ (p : Ptr) (a : ℚ), h.isDepositOnly p = true →
      ∃ (h1 : Heap) (out : Output), h.depositOnlyDeposit p a = some (h1, out) ∧
        ∀ q, q ≠ p → h1.balance q = h.balance q) ∧
    (∃ (h' : Heap) (out : Output),
      c.processTransactions h = some (c, h', out) ∧
      (∀ p ∈ c.withdrawableAccounts, h'.balance p = (h.balance p).map
        (fun b => if b + 1000 ≥ 500 then b + 1000 - 500 else b + 1000)) ∧
      (∀ p ∈ c.depositOnlyAccounts, h'.balance p = (h.balance p).map (fun b => b + 5000)) ∧
      (∀ q, q ∉ c.withdrawableAccounts → q ∉ c.depositOnlyAccounts →
        h'.balance q = h.balance q)) := by
  refine ⟨?_, ?_, ?_⟩
  · intro p a hp
    obtain ⟨h1, out1, e1, f1⟩ := withdrawableDeposit_frame h p a hp
    obtain ⟨h2, out2, e2, f2⟩ := withdrawableWithdraw_frame h p a hp
    exact ⟨⟨h1, out1, e1, fun q hq => by simp only [Heap.balance, f1 q hq]⟩,
      ⟨h2, out2, e2, fun q hq => by simp only [Heap.balance, f2 q hq]⟩⟩
  · intro p a hp
    obtain ⟨h1, out1, e1, f1⟩ := depositOnlyDeposit_frame h p a hp
    exact ⟨h1, out1, e1, fun q hq => by simp only [Heap.balance, f1 q hq]⟩
  · obtain ⟨h', pw, pd, hrun, hw0, hw1, hd0, hd1, hframe⟩ :=
      processTransactions_distinct c h hw hd hdistinct
    refine ⟨h', _, hrun, ?_, ?_, ?_⟩
    · exact fun p hp => (withdrawable_balances_of_maps h h' _ pw hw0 hw1 p hp).2
    · exact fun p hp => (depositOnly_balances_of_maps h h' _ pd hd0 hd1 p hp).2
    · intro q hqw hqd
      simp only [Heap.balance, hframe q hqw hqd]

/-- C11 on the client and heap of `main`: `savings` and `current` end at 500, `fixed`
at 5000, each from its own initial balance 0. -/
theorem balances_independent_witness :
    ∃ (h' : Heap) (out : Output),
      (BankClient.BankClient [0, 1] [2]).processTransactions mainHeap =
        some (BankClient.BankClient [0, 1] [2], h', out) ∧
      h'.balance 0 = some 500 ∧ h'.balance 1 = some 500 ∧ h'.balance 2 = some 5000 := by
  obtain ⟨h', out, hrun, hws, hds, -⟩ :=
    (balances_independent (BankClient.BankClient [0, 1] [2]) mainHeap
      (by decide) (by decide) (by decide)).2.2
  refine ⟨h', out, hrun, ?_, ?_, ?_⟩
  · rw [hws 0 (by decide)]
    norm_num [Heap.balance, mainHeap, DepositOnlyAccount.balance, WithdrawableAccount.balance,
      SavingAccount.SavingAccount]
  · rw [hws 1 (by decide)]
    norm_num [Heap.balance, mainHeap, DepositOnlyAccount.balance, WithdrawableAccount.balance,
      CurrentAccount.CurrentAccount]
  · rw [hds 2 (by decide)]
    norm_num [Heap.balance, mainHeap, DepositOnlyAccount.balance,
      FixedTermAccount.FixedTermAccount]

/-! ## binary64 arithmetic -/

theorem Double.zero_eq : (0 : Double) = .fin 0 := by decide

theorem Double.le_iff_ge (x y : Double) : x ≤ y ↔ Double.ge y x = true := Iff.rfl

theorem Double.lt_iff_gt (x y : Double) : x < y ↔ Double.gt y x = true := Iff.rfl

theorem Double.add_eq (x y : Double) : x + y = Double.add x y := rfl

theorem Double.sub_eq (x y : Double) : x - y = Double.add x (Double.neg y) := rfl

theorem Double.fin_le_fin (m n : ℤ) : Double.fin m ≤ Double.fin n ↔ m ≤ n := by
  simp [Double.le_iff_ge, Double.ge]

theorem Double.fin_lt_fin (m n : ℤ) : Double.fin m < Double.fin n ↔ m < n := by
  simp [Double.lt_iff_gt, Double.gt]

/-- Rounding keeps the sign: the binary64 value of an exact result `≥ 0` is `≥ 0`. -/
theorem Double.round_nonneg (n : ℤ) (hn : 0 ≤ n) : (0 : Double) ≤ Double.round n := by
  rw [Double.zero_eq]
  unfold Double.round
  split
  · rw [Double.fin_le_fin]
    exact mul_nonneg (Int.sign_nonneg.mpr hn) (Int.ofNat_nonneg _)
  · have hlt : ¬ n < 0 := not_lt.mpr hn
    simp [Double.le_iff_ge, Double.ge, hlt]

theorem Double.zero_le_fin (n : ℤ) : (0 : Double) ≤ .fin n ↔ 0 ≤ n := by
  rw [Double.zero_eq, Double.fin_le_fin]

theorem Double.zero_le_inf : (0 : Double) ≤ .inf false := by decide

/-- The rounding reproduces reference binary64 results: `0.1 + 0.2` is
`0.30000000000000004`; `0.3 + 1000` is `1000.3` and `1000.3 - 500` is
`500.29999999999995`, which is not `0.3 + 500`; `10^19 + 1000` is `10^19`;
`0.1 + 10^16` is `10^16`; `2^53 + 1` rounds to the even neighbour `2^53` and `2^53 + 3`
to `2^53 + 4`; the largest finite value plus less than half a unit in its last place
stays, plus half of it overflows to `+∞`; and `10^308 + 10^308` is `+∞`. -/
theorem Double.round_reference_values :
    Double.fin (Int.ofNat (3602879701896397 * 2 ^ 1019)) +
        .fin (Int.ofNat (3602879701896397 * 2 ^ 1020)) =
      .fin (Int.ofNat (1351079888211149 * 2 ^ 1022)) ∧
    Double.fin (Int.ofNat (5404319552844595 * 2 ^ 1020)) + 1000 =
      .fin (Int.ofNat (4399365925057331 * 2 ^ 1032)) ∧
    Double.fin (Int.ofNat (4399365925057331 * 2 ^ 1032)) - 500 =
      .fin (Int.ofNat (2200342669505331 * 2 ^ 1032)) ∧
    Double.fin (Int.ofNat (5404319552844595 * 2 ^ 1020)) + 500 =
      .fin (Int.ofNat (8801370678021325 * 2 ^ 1030)) ∧
    Double.ofInt (Int.ofNat (10 ^ 19)) + 1000 = Double.ofInt (Int.ofNat (10 ^ 19)) ∧
    Double.fin (Int.ofNat (3602879701896397 * 2 ^ 1019)) + Double.ofInt (Int.ofNat (10 ^ 16)) =
      Double.ofInt (Int.ofNat (10 ^ 16)) ∧
    Double.round (Int.ofNat (2 ^ 53 + 1)) = .fin (Int.ofNat (2 ^ 53)) ∧
    Double.round (Int.ofNat (2 ^ 53 + 3)) = .fin (Int.ofNat (2 ^ 53 + 4)) ∧
    Double.round (Int.ofNat ((2 ^ 53 - 1) * 2 ^ 2045 + 2 ^ 2044 - 1)) =
      .fin (Int.ofNat ((2 ^ 53 - 1) * 2 ^ 2045)) ∧
    Double.round (Int.ofNat ((2 ^ 53 - 1) * 2 ^ 2045 + 2 ^ 2044)) = .inf false ∧
    Double.ofInt (Int.ofNat (10 ^ 308)) + Double.ofInt (Int.ofNat (10 ^ 308)) = .inf false := by
  decide

theorem Double.fin_add_fin (m n : ℤ) : Double.fin m + Double.fin n = Double.round (m + n) := by
  simp only [Double.add_eq, Double.add]

theorem Double.fin_sub_fin (m n : ℤ) : Double.fin m - Double.fin n = Double.round (m + -n) := by
  simp only [Double.sub_eq, Double.neg, Double.add]

/-- The sum of two values `≥ 0` is `≥ 0`: it is never NaN. -/
theorem Double.add_nonneg (x y : Double) (hx : 0 ≤ x) (hy : 0 ≤ y) : 0 ≤ x + y := by
  cases x with
  | nan => exact absurd hx (by decide)
  | inf s =>
    cases s with
    | true => exact absurd hx (by decide)
    | false =>
      cases y with
      | nan => exact absurd hy (by decide)
      | inf t =>
        cases t with
        | true => exact absurd hy (by decide)
        | false => exact Double.zero_le_inf
      | fin n => exact Double.zero_le_inf
  | fin m =>
    cases y with
    | nan => exact absurd hy (by decide)
    | inf t =>
      cases t with
      | true => exact absurd hy (by decide)
      | false => exact Double.zero_le_inf
    | fin n =>
      have hm : 0 ≤ m := (Double.zero_le_fin m).mp hx
      have hn : 0 ≤ n := (Double.zero_le_fin n).mp hy
      rw [Double.fin_add_fin]
      exact Double.round_nonneg (m + n) (Int.add_nonneg hm hn)

/-- From a finite value, a difference taken under the guard `x >= y` is `≥ 0`. -/
theorem Double.sub_nonneg_of_finite (x y : Double) (hfin : x.isFinite = true)
    (hge : Double.ge x y = true) : 0 ≤ x - y := by
  cases x with
  | nan => simp [Double.isFinite] at hfin
  | inf s => simp [Double.isFinite] at hfin
  | fin m =>
    cases y with
    | nan => simp [Double.ge] at hge
    | inf t =>
      cases t with
      | true => exact Double.zero_le_inf
      | false => simp [Double.ge] at hge
    | fin n =>
      have hnm : n ≤ m := by simpa [Double.ge] using hge
      rw [Double.fin_sub_fin]
      exact Double.round_nonneg (m + -n) (by linarith)

/-- From `+∞`, a difference taken under the guard `x >= y` is `≥ 0` unless `y` is `+∞`. -/
theorem Double.sub_nonneg_of_inf (y : Double) (hy : y ≠ .inf false)
    (hge : Double.ge (.inf false) y = true) : 0 ≤ Double.inf false - y := by
  cases y with
  | nan => simp [Double.ge] at hge
  | inf t =>
    cases t with
    | true => exact Double.zero_le_inf
    | false => exact absurd rfl hy
  | fin n => exact Double.zero_le_inf

/-- A value `≥ 0` is `+∞` or finite. -/
theorem Double.nonneg_cases (x : Double) (hx : 0 ≤ x) :
    x = .inf false ∨ x.isFinite = true := by
  cases x with
  | nan => exact absurd hx (by decide)
  | inf s =>
    cases s with
    | true => exact absurd hx (by decide)
    | false => exact Or.inl rfl
  | fin m => exact Or.inr rfl

/-- The guard `x >= y` holds for `x ≥ 0` and `y < 0`. -/
theorem Double.ge_of_nonneg_of_neg (x y : Double) (hx : 0 ≤ x) (hy : y < 0) :
    Double.ge x y = true := by
  rw [Double.zero_eq] at hx hy
  cases x with
  | nan => exact absurd hx (by decide)
  | inf s =>
    cases s with
    | true => exact absurd hx (by decide)
    | false =>
      cases y with
      | nan => exact absurd hy (by decide)
      | inf t => rfl
      | fin n => rfl
  | fin m =>
    cases y with
    | nan => exact absurd hy (by decide)
    | inf t =>
      cases t with
      | true => rfl
      | false => exact absurd hy (by decide)
    | fin n =>
      have hm : 0 ≤ m := (Double.fin_le_fin 0 m).mp hx
      have hn : n < 0 := (Double.fin_lt_fin n 0).mp hy
      simp only [Double.ge, decide_eq_true_eq]
      linarith

/-- An exact sum: both values are finite and the sum is the integer sum of the units. -/
theorem Double.exactAdd_iff (x y : Double) :
    x.exactAdd y = true ↔
      ∃ m n : ℤ, x = .fin m ∧ y = .fin n ∧ x + y = .fin (m + n) := by
  cases x with
  | nan => simp [Double.exactAdd]
  | inf s => simp [Double.exactAdd]
  | fin m =>
    cases y with
    | nan => simp [Double.exactAdd]
    | inf t => simp [Double.exactAdd]
    | fin n => simp [Double.exactAdd, Double.add_eq, Double.add]

theorem Double.toRat_fin_add (m n : ℤ) :
    Double.toRat (.fin (m + n)) = Double.toRat (.fin m) + Double.toRat (.fin n) := by
  simp only [Double.toRat]
  push_cast
  ring

theorem Double.toRat_fin_sub (m n : ℤ) :
    Double.toRat (.fin (m + -n)) = Double.toRat (.fin m) - Double.toRat (.fin n) := by
  simp only [Double.toRat]
  push_cast
  ring

namespace Binary64

theorem saving_withdraw_eq (b w : Double) :
    (SavingAccount.mk b).withdraw w =
      if Double.ge b w = true then
        (SavingAccount.mk (b - w),
          [.str "Withdrawn: ", .num w, .str " from Savings Account. New Balance: ",
           .num (b - w), .endl])
      else (SavingAccount.mk b, [.str "Insufficient funds in Savings Account!\n"]) := rfl

theorem current_withdraw_eq (b w : Double) :
    (CurrentAccount.mk b).withdraw w =
      if Double.ge b w = true then
        (CurrentAccount.mk (b - w),
          [.str "Withdrawn: ", .num w, .str " from Current Account. New Balance: ",
           .num (b - w), .endl])
      else (CurrentAccount.mk b, [.str "Insufficient funds in Current Account!\n"]) := rfl

/-! ## Single calls on binary64 -/

/-- On binary64 a deposit of 1 into a balance of `10^16` is absorbed by rounding: the
balance stays `10^16`. -/
theorem deposit_one_absorbed_at_1e16 :
    ((SavingAccount.mk (Double.ofInt (Int.ofNat (10 ^ 16)))).deposit 1).1.balance =
      Double.ofInt (Int.ofNat (10 ^ 16)) := by
  decide

/-- C2 as stated fails at the non-negative amount 0: the balance after `deposit(0)`
on a balance of 7 is not strictly greater than 7. -/
theorem deposit_zero_not_greater :
    (0 : Double) ≤ 0 ∧
    ¬ (((SavingAccount.mk 7).deposit 0).1.balance = 7 + 0 ∧
       (7 : Double) < ((SavingAccount.mk 7).deposit 0).1.balance) := by
  decide

/-- C2, amended: for all three classes, every balance `b` and every amount `a ≥ 0`
whose sum is computed without rounding (both finite, the exact sum a binary64 value, as
for whole numbers below `2^53`), after `deposit(a)` the balance is `b + a`, its real
value is the real sum, it is at least `b`, and it is strictly greater than `b` exactly
when `a > 0`. -/
theorem deposit_exact_sum (b a : Double) (ha : 0 ≤ a) (hex : b.exactAdd a = true) :
    (((SavingAccount.mk b).deposit a).1.balance = b + a ∧
      ((CurrentAccount.mk b).deposit a).1.balance = b + a ∧
      ((FixedTermAccount.mk b).deposit a).1.balance = b + a) ∧
    Double.toRat (b + a) = Double.toRat b + Double.toRat a ∧
    b ≤ b + a ∧
    (b < b + a ↔ 0 < a) := by
  obtain ⟨m, n, rfl, rfl, hsum⟩ := (Double.exactAdd_iff b a).mp hex
  have hn : 0 ≤ n := (Double.zero_le_fin n).mp ha
  refine ⟨⟨rfl, rfl, rfl⟩, ?_, ?_, ?_⟩
  · rw [hsum]
    exact Double.toRat_fin_add m n
  · rw [hsum, Double.fin_le_fin]
    linarith
  · rw [hsum, Double.fin_lt_fin, Double.zero_eq, Double.fin_lt_fin]
    constructor <;> intro h <;> linarith

/-- C2, amended, at balance 250 and amount 1000. -/
theorem deposit_exact_sum_witness :
    ((SavingAccount.mk 250).deposit 1000).1.balance = 250 + 1000 ∧
    Double.toRat (250 + 1000) = Double.toRat 250 + Double.toRat 1000 ∧
    ((250 : Double) < 250 + 1000 ↔ (0 : Double) < 1000) :=
  have h := deposit_exact_sum 250 1000 (by decide) (by decide)
  ⟨h.1.1, h.2.1, h.2.2.2⟩

/-- C4 as stated fails on binary64: `deposit(+∞)` on a freshly constructed account
leaves the balance `+∞`, which is `≥ 0`, and `withdraw(+∞)` then passes the guard and
leaves NaN, which is not `≥ 0`. -/
theorem withdraw_inf_from_inf_is_nan :
    (SavingAccount.SavingAccount.deposit (.inf false)).1 = SavingAccount.mk (.inf false) ∧
    (0 : Double) ≤ .inf false ∧
    ((SavingAccount.mk (.inf false)).withdraw (.inf false)).1.balance = .nan ∧
    ¬ ((0 : Double) ≤ ((SavingAccount.mk (.inf false)).withdraw (.inf false)).1.balance) ∧
    ¬ ((0 : Double) ≤ ((CurrentAccount.mk (.inf false)).withdraw (.inf false)).1.balance) := by
  decide

/-- C4, amended: for `SavingAccount` and `CurrentAccount`, from a finite balance
`b ≥ 0` the balance after `withdraw(w)` is `≥ 0`, whatever `w` is: of either sign,
infinite or NaN. -/
theorem withdraw_keeps_nonneg_finite (b w : Double) (hfin : b.isFinite = true)
    (hb : 0 ≤ b) :
    0 ≤ ((SavingAccount.mk b).withdraw w).1.balance ∧
    0 ≤ ((CurrentAccount.mk b).withdraw w).1.balance := by
  rw [saving_withdraw_eq, current_withdraw_eq]
  by_cases hge : Double.ge b w = true
  · simp only [hge, if_true]
    exact ⟨Double.sub_nonneg_of_finite b w hfin hge, Double.sub_nonneg_of_finite b w hfin hge⟩
  · simp only [hge, if_false]
    exact ⟨hb, hb⟩

/-- C4, amended, at balance 300 with the amounts -40 and `+∞`. -/
theorem withdraw_keeps_nonneg_finite_witness :
    (0 ≤ ((SavingAccount.mk 300).withdraw (-40)).1.balance ∧
      0 ≤ ((CurrentAccount.mk 300).withdraw (-40)).1.balance) ∧
    (0 ≤ ((SavingAccount.mk 300).withdraw (.inf false)).1.balance ∧
      0 ≤ ((CurrentAccount.mk 300).withdraw (.inf false)).1.balance) :=
  ⟨withdraw_keeps_nonneg_finite 300 (-40) (by decide) (by decide),
   withdraw_keeps_nonneg_finite 300 (.inf false) (by decide) (by decide)⟩

/-- C18 as stated fails on binary64: from the balance `10^16`, which is `≥ 0`,
`withdraw(-1)` takes the success branch and leaves `10^16`, not a greater balance; and
from the balance `+∞`, `withdraw(+∞)` takes the success branch and leaves NaN, which is
not `≥ 0`. -/
theorem withdraw_minus_one_absorbed :
    ((0 : Double) ≤ Double.ofInt (Int.ofNat (10 ^ 16)) ∧ (-1 : Double) < 0) ∧
    (SavingAccount.mk (Double.ofInt (Int.ofNat (10 ^ 16)))).withdraw (-1) =
      (SavingAccount.mk (Double.ofInt (Int.ofNat (10 ^ 16))),
        [.str "Withdrawn: ", .num (-1), .str " from Savings Account. New Balance: ",
         .num (Double.ofInt (Int.ofNat (10 ^ 16))), .endl]) ∧
    ¬ (Double.ofInt (Int.ofNat (10 ^ 16)) <
        ((SavingAccount.mk (Double.ofInt (Int.ofNat (10 ^ 16)))).withdraw (-1)).1.balance) ∧
    (SavingAccount.mk (.inf false)).withdraw (.inf false) =
      (SavingAccount.mk .nan,
        [.str "Withdrawn: ", .num (.inf false), .str " from Savings Account. New Balance: ",
         .num .nan, .endl]) ∧
    ¬ ((0 : Double) ≤ ((SavingAccount.mk (.inf false)).withdraw (.inf false)).1.balance) := by
  decide

/-- C18, amended: `withdraw` does not look at the sign of its amount. For
`SavingAccount` and `CurrentAccount`, every balance `b ≥ 0` and every amount `w < 0`,
`withdraw(w)` takes the success branch and leaves the balance `b - w`; when that
difference is computed without rounding (as for whole numbers below `2^53`) its real
value is the real difference and it is strictly greater than `b`; and for every finite
balance `b` and every amount `w`, if `withdraw(w)` writes its success line then the
resulting balance is `≥ 0`. -/
theorem withdraw_negative_amount (b w : Double) :
    (0 ≤ b → w < 0 →
      (SavingAccount.mk b).withdraw w =
        (SavingAccount.mk (b - w),
          [.str "Withdrawn: ", .num w, .str " from Savings Account. New Balance: ",
           .num (b - w), .endl]) ∧
      (CurrentAccount.mk b).withdraw w =
        (CurrentAccount.mk (b - w),
          [.str "Withdrawn: ", .num w, .str " from Current Account. New Balance: ",
           .num (b - w), .endl])) ∧
    (b.exactSub w = true → w < 0 →
      Double.toRat (b - w) = Double.toRat b - Double.toRat w ∧ b < b - w) ∧
    (b.isFinite = true →
      ((SavingAccount.mk b).withdraw w).2 =
        [.str "Withdrawn: ", .num w, .str " from Savings Account. New Balance: ",
         .num (b - w), .endl] →
      0 ≤ ((SavingAccount.mk b).withdraw w).1.balance) ∧
    (b.isFinite = true →
      ((CurrentAccount.mk b).withdraw w).2 =
        [.str "Withdrawn: ", .num w, .str " from Current Account. New Balance: ",
         .num (b - w), .endl] →
      0 ≤ ((CurrentAccount.mk b).withdraw w).1.balance) := by
  refine ⟨?_, ?_, ?_, ?_⟩
  · intro hb hw
    have hge := Double.ge_of_nonneg_of_neg b w hb hw
    rw [saving_withdraw_eq, current_withdraw_eq]
    simp only [hge, if_true, and_self]
  · intro hex hw
    obtain ⟨m, n', rfl, hn', hsum⟩ := (Double.exactAdd_iff b (Double.neg w)).mp hex
    cases w with
    | nan => simp [Double.neg] at hn'
    | inf t => simp [Double.neg] at hn'
    | fin n =>
      have hnn : n' = -n := by
        simp only [Double.neg, Double.fin.injEq] at hn'
        exact hn'.symm
      subst hnn
      have hneg : n < 0 := by
        rw [Double.zero_eq, Double.fin_lt_fin] at hw
        exact hw
      have hsub : Double.fin m - Double.fin n = Double.fin (m + -n) := by
        rw [Double.sub_eq]
        exact hsum
      rw [hsub]
      refine ⟨Double.toRat_fin_sub m n, ?_⟩
      rw [Double.fin_lt_fin]
      linarith
  · intro hfin hout
    rw [saving_withdraw_eq] at hout ⊢
    by_cases hge : Double.ge b w = true
    · simp only [hge, if_true]
      exact Double.sub_nonneg_of_finite b w hfin hge
    · simp [hge] at hout
  · intro hfin hout
    rw [current_withdraw_eq] at hout ⊢
    by_cases hge : Double.ge b w = true
    · simp only [hge, if_true]
      exact Double.sub_nonneg_of_finite b w hfin hge
    · simp [hge] at hout

/-- C18, amended, at balance 10 and amount -90: the withdrawal succeeds, leaves
`10 - -90`, whose real value is 100, and that is greater than 10. -/
theorem withdraw_negative_amount_witness :
    (SavingAccount.mk 10).withdraw (-90) =
      (SavingAccount.mk (10 - -90),
        [.str "Withdrawn: ", .num (-90), .str " from Savings Account. New Balance: ",
         .num (10 - -90), .endl]) ∧
    Double.toRat (10 - -90) = Double.toRat 10 - Double.toRat (-90) ∧
    (10 : Double) < 10 - -90 :=
  have h := withdraw_negative_amount 10 (-90)
  ⟨(h.1 (by decide) (by decide)).1, (h.2.1 (by decide) (by decide)).1,
   (h.2.1 (by decide) (by decide)).2⟩

/-! ## Sequences of calls on binary64 -/

theorem withdrawable_deposit_balance_f64 (acc : WithdrawableAccount) (a : Double) :
    (acc.deposit a).1.balance = acc.balance + a := by
  cases acc <;> rfl

theorem withdrawable_withdraw_balance_f64 (acc : WithdrawableAccount) (w : Double) :
    (acc.withdraw w).1.balance =
      if Double.ge acc.balance w = true then acc.balance - w else acc.balance := by
  cases acc with
  | saving acc =>
    cases acc with
    | mk b =>
      by_cases hge : Double.ge b w = true <;>
        simp [WithdrawableAccount.withdraw, saving_withdraw_eq,
          WithdrawableAccount.balance, hge]
  | current acc =>
    cases acc with
    | mk b =>
      by_cases hge : Double.ge b w = true <;>
        simp [WithdrawableAccount.withdraw, current_withdraw_eq,
          WithdrawableAccount.balance, hge]

theorem depositOnly_deposit_balance_f64 (acc : DepositOnlyAccount) (a : Double) :
    (acc.deposit a).1.balance = acc.balance + a := by
  cases acc with
  | withdrawable acc =>
    simpa [DepositOnlyAccount.deposit, DepositOnlyAccount.balance] using
      withdrawable_deposit_balance_f64 acc a
  | fixedTerm acc => rfl

/-- A withdrawal other than of `+∞` keeps a balance `≥ 0` at `≥ 0`. -/
theorem withdrawable_withdraw_nonneg_f64 (acc : WithdrawableAccount) (w : Double)
    (hacc : 0 ≤ acc.balance) (hw : w ≠ .inf false) : 0 ≤ (acc.withdraw w).1.balance := by
  rw [withdrawable_withdraw_balance_f64]
  by_cases hge : Double.ge acc.balance w = true
  · simp only [hge, if_true]
    rcases Double.nonneg_cases acc.balance hacc with hinf | hfin
    · rw [hinf] at hge ⊢
      exact Double.sub_nonneg_of_inf w hw hge
    · exact Double.sub_nonneg_of_finite _ w hfin hge
  · simp only [hge, if_false]
    exact hacc

/-- From a balance `≥ 0`, calls whose deposits have amounts `≥ 0` and whose withdrawals
are not of `+∞` keep the balance `≥ 0` after every call. -/
theorem withdrawable_run_nonneg_f64 (calls : List Call) :
    ∀ acc : WithdrawableAccount, 0 ≤ acc.balance →
      (∀ a, Call.deposit a ∈ calls → 0 ≤ a) →
      Call.withdraw (.inf false) ∉ calls →
      ∀ r ∈ acc.run calls, 0 ≤ r.1.balance := by
  induction calls with
  | nil => intro acc _ _ _ r hr; simp [WithdrawableAccount.run] at hr
  | cons c cs ih =>
    intro acc hacc hdep hwd r hr
    have hstep : 0 ≤ (acc.call c).1.balance := by
      cases c with
      | deposit a =>
        have ha : 0 ≤ a := hdep a (List.mem_cons_self _ _)
        simp only [WithdrawableAccount.call, withdrawable_deposit_balance_f64]
        exact Double.add_nonneg _ _ hacc ha
      | withdraw w =>
        have hw : w ≠ .inf false := by
          intro hw
          exact hwd (hw ▸ List.mem_cons_self _ _)
        exact withdrawable_withdraw_nonneg_f64 acc w hacc hw
    simp only [WithdrawableAccount.run, List.mem_cons] at hr
    rcases hr with rfl | hr
    · exact hstep
    · exact ih _ hstep (fun a ha => hdep a (List.mem_cons_of_mem _ ha))
        (fun hmem => hwd (List.mem_cons_of_mem _ hmem)) r hr

/-- From a balance `≥ 0`, deposits of amounts `≥ 0` keep the balance `≥ 0` after every
call. -/
theorem depositOnly_run_nonneg_f64 (amounts : List Double) :
    ∀ acc : DepositOnlyAccount, 0 ≤ acc.balance → (∀ a ∈ amounts, 0 ≤ a) →
      ∀ r ∈ acc.run amounts, 0 ≤ r.1.balance := by
  induction amounts with
  | nil => intro acc _ _ r hr; simp [DepositOnlyAccount.run] at hr
  | cons a as ih =>
    intro acc hacc hdep r hr
    have hstep : 0 ≤ (acc.deposit a).1.balance := by
      have ha : 0 ≤ a := hdep a (List.mem_cons_self _ _)
      rw [depositOnly_deposit_balance_f64]
      exact Double.add_nonneg _ _ hacc ha
    simp only [DepositOnlyAccount.run, List.mem_cons] at hr
    rcases hr with rfl | hr
    · exact hstep
    · exact ih _ hstep (fun x hx => hdep x (List.mem_cons_of_mem _ hx)) r hr

theorem fresh_balances_nonneg :
    (0 : Double) ≤ (WithdrawableAccount.saving SavingAccount.SavingAccount).balance ∧
    (0 : Double) ≤ (WithdrawableAccount.current CurrentAccount.CurrentAccount).balance ∧
    (0 : Double) ≤ (DepositOnlyAccount.fixedTerm FixedTermAccount.FixedTermAccount).balance ∧
    (0 : Double) ≤
      (DepositOnlyAccount.withdrawable (.saving SavingAccount.SavingAccount)).balance ∧
    (0 : Double) ≤
      (DepositOnlyAccount.withdrawable (.current CurrentAccount.CurrentAccount)).balance := by
  decide

/-- C8 as stated fails: the single call `deposit(-5)` on a freshly constructed account
of each class leaves the balance -5, which is not `≥ 0`. -/
theorem negative_deposit_leaves_negative :
    ((WithdrawableAccount.saving SavingAccount.SavingAccount).run [.deposit (-5)]).map
        (fun r => r.1.balance) = [-5] ∧
    ¬ (∀ r ∈ (WithdrawableAccount.saving SavingAccount.SavingAccount).run [.deposit (-5)],
        0 ≤ r.1.balance) ∧
    ¬ (∀ r ∈ (WithdrawableAccount.current CurrentAccount.CurrentAccount).run [.deposit (-5)],
        0 ≤ r.1.balance) ∧
    ¬ (∀ r ∈ (DepositOnlyAccount.fixedTerm FixedTermAccount.FixedTermAccount).run [-5],
        0 ≤ r.1.balance) := by
  decide

/-- C8, amended: for every class and every finite sequence of calls applied to a
freshly constructed account in which every `deposit` amount is `≥ 0` and no `withdraw`
amount is `+∞` (the `withdraw` amounts being otherwise arbitrary), the balance after
each call is `≥ 0`. -/
theorem balance_nonneg_deposits_nonneg (calls : List Call) (amounts : List Double)
    (hdep : ∀ a, Call.deposit a ∈ calls → 0 ≤ a)
    (hwd : Call.withdraw (.inf false) ∉ calls)
    (hamounts : ∀ a ∈ amounts, 0 ≤ a) :
    (∀ r ∈ (WithdrawableAccount.saving SavingAccount.SavingAccount).run calls,
        0 ≤ r.1.balance) ∧
    (∀ r ∈ (WithdrawableAccount.current CurrentAccount.CurrentAccount).run calls,
        0 ≤ r.1.balance) ∧
    (∀ r ∈ (DepositOnlyAccount.fixedTerm FixedTermAccount.FixedTermAccount).run amounts,
        0 ≤ r.1.balance) :=
  ⟨withdrawable_run_nonneg_f64 calls _ fresh_balances_nonneg.1 hdep hwd,
   withdrawable_run_nonneg_f64 calls _ fresh_balances_nonneg.2.1 hdep hwd,
   depositOnly_run_nonneg_f64 amounts _ fresh_balances_nonneg.2.2.1 hamounts⟩

/-- C8, amended, on the calls `deposit(3)`, `withdraw(5)`, `withdraw(-2)`,
`withdraw(-∞)`, `withdraw(4)` and the deposits 0, 5000 and `+∞`. -/
theorem balance_nonneg_deposits_nonneg_witness :
    (∀ r ∈ (WithdrawableAccount.saving SavingAccount.SavingAccount).run
        [.deposit 3, .withdraw 5, .withdraw (-2), .withdraw (.inf true), .withdraw 4],
        0 ≤ r.1.balance) ∧
    (∀ r ∈ (WithdrawableAccount.current CurrentAccount.CurrentAccount).run
        [.deposit 3, .withdraw 5, .withdraw (-2), .withdraw (.inf true), .withdraw 4],
        0 ≤ r.1.balance) ∧
    (∀ r ∈ (DepositOnlyAccount.fixedTerm FixedTermAccount.FixedTermAccount).run
        [0, 5000, .inf false], 0 ≤ r.1.balance) :=
  balance_nonneg_deposits_nonneg
    [.deposit 3, .withdraw 5, .withdraw (-2), .withdraw (.inf true), .withdraw 4]
    [0, 5000, .inf false]
    (by
      intro a ha
      simp only [List.mem_cons, Call.deposit.injEq, List.mem_singleton, reduceCtorEq,
        or_false, List.not_mem_nil] at ha
      subst ha
      decide)
    (by decide) (by decide)

/-- C16 as stated fails on binary64: on a freshly constructed account the calls
`deposit(+∞)`, `withdraw(+∞)`, both of an amount `≥ 0`, leave the balances `+∞` and then
NaN, which is not `≥ 0`. -/
theorem infinite_amounts_leave_nan :
    (∀ c ∈ [Call.deposit (.inf false), Call.withdraw (.inf false)], 0 ≤ c.amount) ∧
    ((WithdrawableAccount.saving SavingAccount.SavingAccount).run
        [.deposit (.inf false), .withdraw (.inf false)]).map (fun r => r.1.balance) =
      [.inf false, .nan] ∧
    ¬ (∀ r ∈ (WithdrawableAccount.saving SavingAccount.SavingAccount).run
        [.deposit (.inf false), .withdraw (.inf false)], 0 ≤ r.1.balance) ∧
    ¬ (∀ r ∈ (WithdrawableAccount.current CurrentAccount.CurrentAccount).run
        [.deposit (.inf false), .withdraw (.inf false)], 0 ≤ r.1.balance) := by
  decide

/-- C16, amended: for every class and every finite sequence of calls applied to a
freshly constructed account in which every amount, of a `deposit` or of a `withdraw`, is
`≥ 0` and no `withdraw` amount is `+∞`, the balance after every call is `≥ 0`. -/
theorem balance_nonneg_amounts_nonneg (calls : List Call) (amounts : List Double)
    (hcalls : ∀ c ∈ calls, 0 ≤ c.amount)
    (hwd : Call.withdraw (.inf false) ∉ calls)
    (hamounts : ∀ a ∈ amounts, 0 ≤ a) :
    (∀ r ∈ (WithdrawableAccount.saving SavingAccount.SavingAccount).run calls,
        0 ≤ r.1.balance) ∧
    (∀ r ∈ (WithdrawableAccount.current CurrentAccount.CurrentAccount).run calls,
        0 ≤ r.1.balance) ∧
    (∀ r ∈ (DepositOnlyAccount.fixedTerm FixedTermAccount.FixedTermAccount).run amounts,
        0 ≤ r.1.balance) ∧
    (∀ r ∈ (DepositOnlyAccount.withdrawable (.saving SavingAccount.SavingAccount)).run amounts,
        0 ≤ r.1.balance) ∧
    (∀ r ∈ (DepositOnlyAccount.withdrawable (.current CurrentAccount.CurrentAccount)).run
        amounts, 0 ≤ r.1.balance) := by
  have hdep : ∀ a, Call.deposit a ∈ calls → 0 ≤ a := fun a ha => hcalls _ ha
  exact ⟨withdrawable_run_nonneg_f64 calls _ fresh_balances_nonneg.1 hdep hwd,
    withdrawable_run_nonneg_f64 calls _ fresh_balances_nonneg.2.1 hdep hwd,
    depositOnly_run_nonneg_f64 amounts _ fresh_balances_nonneg.2.2.1 hamounts,
    depositOnly_run_nonneg_f64 amounts _ fresh_balances_nonneg.2.2.2.1 hamounts,
    depositOnly_run_nonneg_f64 amounts _ fresh_balances_nonneg.2.2.2.2 hamounts⟩

/-- C16, amended, on the calls `deposit(100)`, `withdraw(250)`, `withdraw(0)`,
`deposit(+∞)`, `withdraw(100)` and the deposits 0, 5000, 0. -/
theorem balance_nonneg_amounts_nonneg_witness :
    (∀ r ∈ (WithdrawableAccount.saving SavingAccount.SavingAccount).run
        [.deposit 100, .withdraw 250, .withdraw 0, .deposit (.inf false), .withdraw 100],
        0 ≤ r.1.balance) ∧
    (∀ r ∈ (WithdrawableAccount.current CurrentAccount.CurrentAccount).run
        [.deposit 100, .withdraw 250, .withdraw 0, .deposit (.inf false), .withdraw 100],
        0 ≤ r.1.balance) ∧
    (∀ r ∈ (DepositOnlyAccount.fixedTerm FixedTermAccount.FixedTermAccount).run [0, 5000, 0],
        0 ≤ r.1.balance) :=
  have h := balance_nonneg_amounts_nonneg
    [.deposit 100, .withdraw 250, .withdraw 0, .deposit (.inf false), .withdraw 100]
    [0, 5000, 0] (by decide) (by decide) (by decide)
  ⟨h.1, h.2.1, h.2.2.1⟩

end Binary64

/-! ## The client on binary64 -/

namespace Binary64

end Binary64

namespace Binary64

end Binary64
